import Mathlib

/-!
# Verification of the receipt ingestion and parsing pipeline

Shallow embedding of the components of the `parcer20` backend that the
claims refer to:

* `backend/parsers/regex_parser.py` — `RegexParser.normalize_amount`
* `backend/parsers/operator_mapper.py` — `OperatorMapper.normalize_operator`,
  `refresh_cache`, `map_operator_details`
* `backend/parsers/gpt_parser.py` — `GPTParser.parse_from_images` (method tag)
* `backend/api/routes/transactions.py` — `infer_transaction_type`
* `backend/services/receipt_processor.py` — `process_tdlib_message`
* `backend/services/tg_auto_monitor_service.py` — `_should_process_message`,
  `_process_single`
* `backend/parsers/parser_orchestrator.py` — `_post_validate_and_enrich`,
  the required-fields/sign gate applied to every parse the orchestrator
  returns
* `backend/database/models.py` — the `Transaction` table's check and unique
  constraints and the `MonitoredBotChat` table

Python strings are modelled as Lean `String`/`List Char`.  Python's
`str.lower`/`str.upper` are modelled by the ASCII case maps `pyLower`/
`pyUpper` (they agree with Python on every ASCII string; the difference on
non-ASCII letters is noted at each use site).  External effects (TDLib
fetches, the OpenAI client, PDF downloads) are inputs of the embedded
functions.
-/

/-! ## Character and string primitives -/

/-- Characters stripped by Python's `str.strip()` and matched by the regex
class `\s` (ASCII whitespace plus the no-break space; Python also matches a
few rarer Unicode spaces, which none of the embedded code distinguishes
from these). -/
def isPySpaceCh (c : Char) : Bool :=
  c == ' ' || c == '\t' || c == '\n' || c == '\r' ||
  c == '\x0b' || c == '\x0c' || c == ' '

/-- `str.strip()` on a character list: drop leading and trailing whitespace. -/
def pyStripL (l : List Char) : List Char :=
  ((l.dropWhile isPySpaceCh).reverse.dropWhile isPySpaceCh).reverse

/-- `str.strip()`. -/
def pyStrip (s : String) : String := String.mk (pyStripL s.data)

/-- Python `str.lower`, restricted to the ASCII case map.  Agrees with
Python on every ASCII string. -/
def pyLower (s : String) : String := String.mk (s.data.map Char.toLower)

/-- Python `str.upper`, restricted to the ASCII case map.  Agrees with
Python on every ASCII string. -/
def pyUpper (s : String) : String := String.mk (s.data.map Char.toUpper)

/-- `needle` occurs at the start of `hay` (character lists). -/
def chStartsWith : List Char → List Char → Bool
  | [], _ => true
  | _ :: _, [] => false
  | a :: as, b :: bs => a == b && chStartsWith as bs

/-- `needle in hay` (Python substring containment) on character lists. -/
def chContains (hay needle : List Char) : Bool :=
  match hay with
  | [] => needle.isEmpty
  | _ :: t => chStartsWith needle hay || chContains t needle

/-- Python's `needle in hay` on strings. -/
def strContainsB (hay needle : String) : Bool := chContains hay.data needle.data

/-- Python's `hay.startswith(needle)`. -/
def strStartsWithB (hay needle : String) : Bool := chStartsWith needle.data hay.data

/-- Python's `hay.endswith(needle)`. -/
def strEndsWithB (hay needle : String) : Bool :=
  chStartsWith needle.data.reverse hay.data.reverse

/-! ## `RegexParser.normalize_amount` (backend/parsers/regex_parser.py) -/

/-- A Python `Decimal` as produced by `Decimal(cleaned)` on a cleaned
numeral: a scaled integer whose value is `mantissa / 10 ^ scale` (this is
exactly `Decimal`'s coefficient/exponent representation). -/
structure Dec where
  mantissa : Int
  scale : Nat
deriving DecidableEq

/-- The rational value of a `Dec`. -/
def Dec.toRat (d : Dec) : ℚ := (d.mantissa : ℚ) / (10 : ℚ) ^ d.scale

/-- Python unary minus on `Decimal`. -/
def Dec.neg (d : Dec) : Dec := ⟨-d.mantissa, d.scale⟩

/-- Python `abs` on `Decimal`. -/
def Dec.abs (d : Dec) : Dec := ⟨|d.mantissa|, d.scale⟩

/-- The digit value of an ASCII digit character, folded over a list:
`Decimal("...")` digit parsing. -/
def digitsToNat (l : List Char) : Nat :=
  l.foldl (fun a c => a * 10 + (c.toNat - 48)) 0

/-- `l.split('.')` on character lists (always returns at least one part). -/
def splitDots : List Char → List (List Char)
  | [] => [[]]
  | c :: t =>
    if c = '.' then [] :: splitDots t
    else
      match splitDots t with
      | [] => [[c]]
      | p :: ps => (c :: p) :: ps

/-- `"".join(parts[:-1]) + "." + parts[-1]`: keep only the last dot. -/
def mergeDots (l : List Char) : List Char :=
  let parts := splitDots l
  parts.dropLast.flatten ++ '.' :: parts.getLastD []

/-- `Decimal(cleaned)` for a cleaned numeral of digits with at most one
dot: the digits before and after the dot form the coefficient, the number
of digits after the dot is the (negated) exponent. -/
def decimalOfChars (l : List Char) : Dec :=
  let ip := l.takeWhile (fun c => c ≠ '.')
  let fp := (l.dropWhile (fun c => c ≠ '.')).drop 1
  ⟨(digitsToNat ip * 10 ^ fp.length + digitsToNat fp : Nat), fp.length⟩

/-- Lines 57–58 of `normalize_amount`:
`amount_str.strip().replace("\u00a0", "").replace(" ", "")`. -/
def cleanedAmount (l : List Char) : List Char :=
  ((pyStripL l).filter (fun c => c ≠ ' ')).filter (fun c => c ≠ ' ')

/-- Lines 60–67: when both `.` and `,` are present treat `.` as a
thousands separator and `,` as the decimal point; when only `,` is
present treat it as the decimal point. -/
def sepConvert (cleaned : List Char) : List Char :=
  if cleaned.contains '.' && cleaned.contains ',' then
    (cleaned.filter (fun c => c ≠ '.')).map (fun c => if c = ',' then '.' else c)
  else if cleaned.contains ',' then
    cleaned.map (fun c => if c = ',' then '.' else c)
  else cleaned

/-- Line 69: `re.sub(r"[^0-9\.]", "", cleaned)`. -/
def digitsDots (l : List Char) : List Char :=
  l.filter (fun c => c.isDigit || c == '.')

/-- Lines 71–73: if more than one dot remains, keep only the last one. -/
def lastDotOnly (c2 : List Char) : List Char :=
  if 1 < (c2.filter (fun c => c == '.')).length then mergeDots c2 else c2

/-- `RegexParser.normalize_amount` on the underlying character list:
strip, drop no-break spaces and spaces, decide the separator convention
from the presence of `.` and `,`, drop every other character, keep only the
last dot, and reject inputs that reduce to nothing (`ValueError` is
modelled as `none`). -/
def normalizeAmountL (l : List Char) : Option Dec :=
  let c3 := lastDotOnly (digitsDots (sepConvert (cleanedAmount l)))
  if c3 = [] ∨ c3 = ['.'] then none else some (decimalOfChars c3)

/-- `RegexParser.normalize_amount`. -/
def normalize_amount (s : String) : Option Dec := normalizeAmountL s.data

example : normalize_amount "6.935.000,00" = some ⟨693500000, 2⟩ := by decide
example : normalize_amount "2 052 200,14" = some ⟨205220014, 2⟩ := by decide
example : normalize_amount "351 750.00" = some ⟨35175000, 2⟩ := by decide
example : normalize_amount "abc" = none := by decide
example : normalize_amount "." = none := by decide
example : (Dec.toRat ⟨693500000, 2⟩) = 6935000 := by norm_num [Dec.toRat]

/-! ## `OperatorMapper` (backend/parsers/operator_mapper.py) -/

/-- Replace every maximal run of whitespace with a single space:
`re.sub(r"[\s\t\n]+", " ", ·)`.  The `inRun` flag records whether the
previous character belonged to a whitespace run. -/
def subWsRunsAux : Bool → List Char → List Char
  | _, [] => []
  | inRun, c :: rest =>
    if isPySpaceCh c then
      if inRun then subWsRunsAux true rest else ' ' :: subWsRunsAux true rest
    else c :: subWsRunsAux false rest

/-- `re.sub(r"[\s\t\n]+", " ", ·)`. -/
def subWsRuns (l : List Char) : List Char := subWsRunsAux false l

/-- Membership in the character class `[A-Z0-9 ]`. -/
def isOpKeptCh (c : Char) : Bool :=
  ('A' ≤ c && c ≤ 'Z') || ('0' ≤ c && c ≤ '9') || c == ' '

/-- `re.sub(r"[^A-Z0-9 ]", " ", ·)`: every character outside `[A-Z0-9 ]`
becomes a space. -/
def subNonAlnum (l : List Char) : List Char :=
  l.map (fun c => if isOpKeptCh c then c else ' ')

/-- `s.split()` with an accumulator holding the reversed current token. -/
def wsTokensAux (cur : List Char) : List Char → List (List Char)
  | [] => if cur.isEmpty then [] else [cur.reverse]
  | c :: rest =>
    if isPySpaceCh c then
      if cur.isEmpty then wsTokensAux [] rest else cur.reverse :: wsTokensAux [] rest
    else wsTokensAux (c :: cur) rest

/-- `s.split()`: the maximal whitespace-free tokens of `s`. -/
def wsTokens (l : List Char) : List (List Char) := wsTokensAux [] l

/-- `" ".join(tokens)`. -/
def joinSp : List (List Char) → List Char
  | [] => []
  | [t] => t
  | t :: rest => t ++ ' ' :: joinSp rest

/-- `OperatorMapper.normalize_operator`: uppercase, collapse whitespace to
single spaces, replace every character outside `[A-Z0-9 ]` by a space, and
re-join the whitespace-separated tokens with single spaces. -/
def normalize_operator (value : String) : String :=
  if value = "" then ""
  else
    let n1 := (pyUpper value).data
    let n2 := subWsRuns n1
    let n3 := subNonAlnum n2
    String.mk (joinSp (wsTokens n3))

example : normalize_operator "A-B" = "A B" := by decide
example : normalize_operator "  oq   p2p>tashkent " = "OQ P2P TASHKENT" := by decide

/-- One row of the `operator_reference` table (`OperatorReference` model). -/
structure OperatorReference where
  id : Int
  operator_name : String
  application_name : String
  is_p2p : Bool
  is_active : Bool

/-- One entry of `OperatorMapper.mappings_cache`:
`(id, operator_name_normalized, application_name, is_p2p)`. -/
structure CacheEntry where
  ref_id : Int
  pattern : String
  app : String
  p2p : Bool
deriving DecidableEq

/-- `OperatorMapper.refresh_cache`: active rows with a non-empty operator
and application name, with the operator name normalized. -/
def refresh_cache (rows : List OperatorReference) : List CacheEntry :=
  (rows.filter (fun r => r.is_active && !(r.operator_name = "") && !(r.application_name = ""))).map
    (fun r => ⟨r.id, normalize_operator r.operator_name, r.application_name, r.is_p2p⟩)

/-- The result dictionary of `OperatorMapper.map_operator_details`. -/
structure MatchDetails where
  reference_id : Int
  matched_operator_name : String
  application_name : String
  is_p2p : Bool
  match_type : String
deriving DecidableEq

/-- The scan loop of `map_operator_details`: walk the cache keeping the
best substring match `(best, bestLen)`; stop at the first exact match.
Returns the exact match (if the loop stopped) and the final best. -/
def scanEntries (input : String) (best : Option CacheEntry) (bestLen : Int) :
    List CacheEntry → Option CacheEntry × Option CacheEntry
  | [] => (none, best)
  | e :: rest =>
    if e.pattern = "" then scanEntries input best bestLen rest
    else if input = e.pattern then (some e, best)
    else if strContainsB input e.pattern then
      if bestLen < (e.pattern.length : Int) then
        scanEntries input (some e) (e.pattern.length : Int) rest
      else scanEntries input best bestLen rest
    else scanEntries input best bestLen rest

/-- `OperatorMapper.map_operator_details`: exact normalized match first,
otherwise the longest substring match. -/
def map_operator_details (cache : List CacheEntry) (operator_raw : String) :
    Option MatchDetails :=
  if operator_raw = "" then none
  else
    let input := normalize_operator operator_raw
    if input = "" then none
    else
      match scanEntries input none (-1) cache with
      | (some e, _) => some ⟨e.ref_id, e.pattern, e.app, e.p2p, "EXACT"⟩
      | (none, some e) => some ⟨e.ref_id, e.pattern, e.app, e.p2p, "SUBSTRING"⟩
      | (none, none) => none

/-! ## `infer_transaction_type` (backend/api/routes/transactions.py) -/

/-- `" ".join(parts)`. -/
def joinSpStrings (parts : List String) : String := String.mk (joinSp (parts.map (·.data)))

/-- `infer_transaction_type`: canonical type from raw type and raw text,
priority `REVERSAL > CONVERSION > explicit sign > keyword map > DEBIT`. -/
def infer_transaction_type (raw_type raw_text : Option String) : String :=
  let combined_upper :=
    pyUpper (joinSpStrings (([raw_type.getD "", raw_text.getD ""]).filter (fun p => !(p = ""))))
  if ["REVERSAL", "ОТМЕНА", "OTMENA", "CANCEL"].any
      (fun k => strContainsB combined_upper k) then "REVERSAL"
  else if ["CONVERSION", "КОНВЕРСИЯ", "KONVERSIY", "KONVERS"].any
      (fun k => strContainsB combined_upper k) then "CONVERSION"
  else
    let sign_text := (raw_type.getD "") ++ " " ++ (raw_text.getD "")
    if strContainsB sign_text "➕" then "CREDIT"
    else if strContainsB sign_text "➖" then "DEBIT"
    else if ["CREDIT", "ПОПОЛНЕНИЕ", "POPOLNENIE", "KIRIM", "ПОСТУПЛЕНИЕ", "POSTUPLENIE"].any
        (fun k => strContainsB combined_upper k) then "CREDIT"
    else if ["DEBIT", "СПИСАНИЕ", "SPISANIE", "ОПЛАТА", "OPLATA", "POKUPKA", "PLATEZH", "E-COM"].any
        (fun k => strContainsB combined_upper k) then "DEBIT"
    else "DEBIT"

example : infer_transaction_type (some "DEBIT") (some "hello") = "DEBIT" := by decide
example : infer_transaction_type none (some "OTMENA Pokupka") = "REVERSAL" := by decide

/-! ## Data model (backend/database/models.py) -/

/-- A timestamp at the minute resolution that the pipeline's content
fingerprint (`%Y-%m-%d %H:%M`) distinguishes.  `process_tdlib_message`
localizes every parsed timestamp to the single configured zone
(`Asia/Tashkent`); the embedding carries the already-localized value. -/
structure MinuteStamp where
  year : Nat
  month : Nat
  day : Nat
  hour : Nat
  minute : Nat
deriving DecidableEq

/-- A row of the `transactions` table, restricted to the columns the
pipeline writes (`Transaction` model). -/
structure TransactionRow where
  source_chat_id : Int
  source_message_id : Int
  transaction_date : MinuteStamp
  amount : Dec
  currency : String
  card_last_4 : String
  operator_raw : String
  application_mapped : Option String
  transaction_type : String
  balance_after : Option Dec
  source_type : String
  raw_message : String
  parsing_method : Option String
  parsing_confidence : Option ℚ
  is_gpt_parsed : Bool
  is_p2p : Bool
deriving DecidableEq

/-- The `check_parsing_method` constraint's value set
(`models.py` lines 65–68).  Note: it does not contain `GPT_VISION`. -/
def allowedParsingMethods : List String :=
  ["REGEX_HUMO", "REGEX_SMS", "REGEX_SEMICOLON", "REGEX_CARDXABAR", "GPT"]

/-- The `check_transaction_type` constraint's value set. -/
def allowedTransactionTypes : List String :=
  ["DEBIT", "CREDIT", "CONVERSION", "REVERSAL"]

/-- The `check_source_type` constraint's value set. -/
def allowedSourceTypes : List String := ["MANUAL", "AUTO"]

/-- The table's check constraints on a row (a SQL `CHECK` with a NULL
operand passes, so `none` passes the nullable-column checks). -/
def rowPassesChecks (r : TransactionRow) : Bool :=
  allowedSourceTypes.contains r.source_type &&
  allowedTransactionTypes.contains r.transaction_type &&
  (match r.parsing_confidence with
   | none => true
   | some c => decide (0 ≤ c) && decide (c ≤ 1)) &&
  (match r.parsing_method with
   | none => true
   | some m => allowedParsingMethods.contains m)

/-- The `uq_transactions_source_msg` address predicate: the row sits at
source address `(chatId, msgId)`. -/
def addrMatch (chatId msgId : Int) (r : TransactionRow) : Bool :=
  r.source_chat_id == chatId && r.source_message_id == msgId

/-- The content triple the spec's fingerprint hashes:
`(|amount|, minute-truncated timestamp, card last four)`. -/
def contentKey (r : TransactionRow) : Dec × MinuteStamp × String :=
  (r.amount.abs, r.transaction_date, r.card_last_4)

/-! ## `process_tdlib_message` (backend/services/receipt_processor.py) -/

/-- The `document` part of a formatted TDLib message. -/
structure TgDocument where
  mime_type : Option String
  file_name : Option String
  file_id : Option Int
deriving DecidableEq

/-- A formatted TDLib message as returned by the session manager:
`{chat_id, id, text, document?}` (the fields the processor reads). -/
structure TgMessage where
  chat_id : Option Int
  text : String
  document : Option TgDocument
deriving DecidableEq

/-- The parsed-data dictionary produced by the parsing cascade
(`ParserOrchestrator.process` or `GPTParser.parse_from_images`).  The
cascade itself (regex dialects, model calls, PDF extraction) is an
external input of the embedded processor. -/
structure ParsedData where
  amount : Option Dec
  transaction_type : Option String
  card_last_4 : Option String
  card_last4 : Option String
  operator_raw : Option String
  transaction_date : Option MinuteStamp
  balance_after : Option Dec
  currency : Option String
  application_mapped : Option String
  parsing_method : Option String
  parsing_confidence : Option ℚ
  is_p2p : Option Bool
deriving DecidableEq

/-- Python's `x or default` for an optional string (`None` and `""` are
falsy). -/
def orDefault (x : Option String) (dflt : String) : String :=
  match x with
  | some s => if s = "" then dflt else s
  | none => dflt

/-- The outcome of `process_tdlib_message`: either a
`ProcessReceiptResponse` or a raised `HTTPException (status, detail)`. -/
inductive ProcResult where
  | response (created duplicate : Bool) (txn : TransactionRow)
      (method : Option String) (confidence : Option ℚ) (notes : Option String)
  | httpError (status : Nat) (detail : String)
deriving DecidableEq

/-- The `Transaction(...)` constructor call of `process_tdlib_message`
(lines 197–226): signed amount, operator/card/currency defaults, P2P
heuristic, GPT flag.  `a` and `dt` are the parsed amount and (localized)
timestamp already extracted from `p`. -/
def build_txn_row (chatId msgId : Int) (rawText : String) (p : ParsedData)
    (dt : MinuteStamp) (a : Dec) : TransactionRow :=
  let txnType := infer_transaction_type p.transaction_type (some rawText)
  let operatorRaw := orDefault p.operator_raw "Unknown"
  { source_chat_id := chatId
    source_message_id := msgId
    transaction_date := dt
    amount := if txnType = "DEBIT" then a.abs.neg else a.abs
    currency := orDefault p.currency "UZS"
    card_last_4 :=
      match p.card_last_4 with
      | some s => if s = "" then orDefault p.card_last4 "0000" else s
      | none => orDefault p.card_last4 "0000"
    operator_raw := operatorRaw
    application_mapped := p.application_mapped
    transaction_type := txnType
    balance_after := p.balance_after
    source_type := "AUTO"
    raw_message := rawText
    parsing_method := p.parsing_method
    parsing_confidence := p.parsing_confidence
    is_gpt_parsed := strStartsWithB (pyUpper (orDefault p.parsing_method "")) "GPT"
    is_p2p :=
      match p.is_p2p with
      | some b => b
      | none => strContainsB (pyUpper operatorRaw) "P2P" }

/-- `process_tdlib_message` (backend/services/receipt_processor.py).

The embedding takes the message fetched from TDLib (`none` = not found)
and the outcome `parsed?` of the parsing cascade on the message's text
(for text messages, `orchestrator.process`; for PDFs, the PDF
download/extraction/vision sub-flow, whose internal error statuses are
outside the claims checked here and are collapsed into `parsed? = none`).
The store is the list of `transactions` rows; `db.add`/`db.commit` is
modelled by the append guarded by the table's unique and check
constraints, and a failed commit rolls the store back unchanged and
raises status 500 (the DB error text appended to the detail in the source
is elided). -/
def process_tdlib_message (chatId msgId : Int) (force : Bool)
    (message : Option TgMessage) (parsed? : Option ParsedData)
    (store : List TransactionRow) : ProcResult × List TransactionRow :=
  -- Duplicate check on (source_chat_id, source_message_id)
  match store.find? (addrMatch chatId msgId), force with
  | some existing, false =>
    (.response false true existing existing.parsing_method none (some "Already processed"), store)
  | _, _ =>
    match message with
    | none => (.httpError 404 "Message not found", store)
    | some msg =>
      let text := pyStrip msg.text
      -- Unsupported-document gate (mime present and not application/pdf)
      let gate : Option String :=
        match msg.document with
        | some doc =>
          match doc.mime_type with
          | some m => if m ≠ "" ∧ m ≠ "application/pdf" then some m else none
          | none => none
        | none => none
      match gate with
      | some m => (.httpError 400 ("Unsupported document type: " ++ m), store)
      | none =>
        -- `is_pdf and file_id`: the PDF sub-flow runs only when both hold
        let isPdf :=
          (match msg.document with
           | some doc =>
             (pyLower (orDefault doc.mime_type "") == "application/pdf" ||
              strEndsWithB (pyLower (orDefault doc.file_name "")) ".pdf") &&
             doc.file_id.isSome
           | none => false)
        -- Text-only messages with empty content are rejected before parsing
        if !isPdf && text == "" then (.httpError 422 "Empty message content", store)
        else
          match parsed? with
          | none => (.httpError 422 "Cannot parse receipt", store)
          | some p =>
            match p.transaction_date with
            | none => (.httpError 422 "Parsed data missing transaction_date", store)
            | some dt =>
              match p.amount with
              | none => (.httpError 422 "Parsed data missing amount", store)
              | some a =>
                let row := build_txn_row chatId msgId text p dt a
                if store.any (addrMatch chatId msgId) || ¬ rowPassesChecks row then
                  (.httpError 500 "Failed to save transaction", store)
                else
                  (.response true false row p.parsing_method p.parsing_confidence none,
                    store ++ [row])

/-! ## `GPTParser.parse_from_images` (backend/parsers/gpt_parser.py) -/

/-- The tail of `GPTParser.parse_from_images` (lines 191–195): the model
reply is validated into the transaction schema, converted by
`_convert_schema` (which tags `parsing_method = 'GPT'`), and then the
method is overwritten with `'GPT_VISION'`.  `base` is the converted
schema. -/
def parse_from_images (base : ParsedData) : ParsedData :=
  { base with parsing_method := some "GPT_VISION" }

/-! ## `ParserOrchestrator._post_validate_and_enrich`
(backend/parsers/parser_orchestrator.py) -/

/-- The validation/enrichment step applied to every parse result the
orchestrator returns: `process` calls it on each successful parse and
returns `None` when it raises (lines 93–98).  The required-fields gate
(line 161) raises `ValueError` when `amount` is missing or falsy — a
`Decimal` is falsy exactly when it is numerically zero, i.e. has zero
mantissa — or when the timestamp is missing, or the type is missing or
empty; then `amount` and `balance_after` are replaced by their absolute
values, the currency is upper-cased with default `'UZS'`, and a missing
`is_p2p` flag is filled from the operator string.  The card-last-4 regex
fallback and the receiver extraction touch fields outside every claim
and are kept as the identity. -/
def post_validate_and_enrich (data : ParsedData) : Option ParsedData :=
  match data.amount, data.transaction_date, data.transaction_type with
  | some a, some _, some t =>
    if a.mantissa = 0 ∨ t = "" then none
    else
      some { data with
        amount := some a.abs
        balance_after := data.balance_after.map Dec.abs
        currency := some (match data.currency with
          | some c => if c = "" then "UZS" else pyUpper c
          | none => "UZS")
        is_p2p := some (match data.is_p2p with
          | some b => b
          | none => strContainsB (pyUpper (orDefault data.operator_raw "")) "P2P") }
  | _, _, _ => none

/-! ## `TgAutoMonitorService` (backend/services/tg_auto_monitor_service.py) -/

/-- `DEFAULT_RECEIPT_KEYWORDS` (already lower-case in the source). -/
def DEFAULT_RECEIPT_KEYWORDS : List String :=
  ["uzs", "usd", "humo", "uzcard", "oplata", "оплата", "пополнение", "balans",
   "баланс", "receipt", "chek", "чек", "transfer", "перевод", "payme", "click",
   "apelsin", "terminal"]

/-- `MIN_RECEIPT_TEXT_LENGTH`. -/
def MIN_RECEIPT_TEXT_LENGTH : Nat := 20

/-- `GROUP_CHAT_TYPES`. -/
def GROUP_CHAT_TYPES : List String := ["group", "supergroup", "channel"]

/-- A row of `monitored_bot_chats` (`MonitoredBotChat` model).
`filter_keywords` holds the keyword list already decoded by
`_parse_keywords` (the JSON/comma decoding itself is not modelled;
`none`/empty raw values decode to `[]`). -/
structure MonitoredBotChat where
  chat_id : Int
  enabled : Bool
  last_processed_message_id : Option Int
  last_error : Option String
  chat_type : String
  filter_mode : String
  filter_keywords : List String

/-- `TgAutoMonitorService._should_process_message` for formatted messages
(raw-TDLib updates, which the source handles in a fallback branch only
when the formatted text is empty and a `content` key is present, do not
occur for messages delivered by the session manager and are not
modelled). -/
def should_process_message (monitor : MonitoredBotChat) (message : TgMessage) : Bool :=
  -- PDF documents are accepted unconditionally
  if (match message.document with
      | some doc => doc.mime_type == some "application/pdf"
      | none => false) then true
  else
    let text := pyStrip message.text
    if text == "" then false
    else
      let textLower := pyLower text
      let isGroupChat :=
        GROUP_CHAT_TYPES.contains (if monitor.chat_type = "" then "private" else monitor.chat_type) ||
        (match message.chat_id with
         | some v => decide (v < 0)
         | none => false)
      let defaultHit :=
        decide (MIN_RECEIPT_TEXT_LENGTH ≤ textLower.length) &&
        DEFAULT_RECEIPT_KEYWORDS.any (fun kw => strContainsB textLower kw)
      if isGroupChat && !defaultHit then false
      else
        let keywords := monitor.filter_keywords
        let hasKeyword :=
          if keywords.isEmpty then false
          else keywords.any (fun kw => strContainsB textLower (pyLower kw))
        if monitor.filter_mode = "blacklist" then
          if keywords.isEmpty then defaultHit || !isGroupChat
          else !hasKeyword
        else if monitor.filter_mode = "whitelist" then
          hasKeyword && (defaultHit || !isGroupChat)
        else
          if keywords.isEmpty then (if defaultHit || !isGroupChat then true else false)
          else hasKeyword

/-- The default keyword predicate of the spec: stripped text of at least
`MIN_RECEIPT_TEXT_LENGTH` characters whose lower-casing contains at least
one default receipt keyword. -/
def default_keyword_hit (text : String) : Bool :=
  let tl := pyLower (pyStrip text)
  decide (MIN_RECEIPT_TEXT_LENGTH ≤ tl.length) &&
  DEFAULT_RECEIPT_KEYWORDS.any (fun kw => strContainsB tl kw)

/-- `str(exc)` for the `HTTPException(status_code, detail)` raised by
`process_tdlib_message` (Starlette renders it as
`"{status_code}: {detail}"`). -/
def httpErrorString (status : Nat) (detail : String) : String :=
  toString status ++ ": " ++ detail

/-- The permanent-error classifier of `_process_single` (lines 237–241):
the lowered error text contains one of the permanent patterns. -/
def is_permanent_error (err : String) : Bool :=
  ["cannot parse", "empty message", "unsupported", "missing", "invalid"].any
    (fun x => strContainsB (pyLower err) x)

/-- `TgAutoMonitorService._process_single`, given the monitor row it
loaded and the outcome of `process_tdlib_message` for
`(chat_id, message_id)`: on success or permanent failure the cursor moves
to `greatest(coalesce(cursor, 0), message_id)` and `last_error` records
the failure (or clears); on transient failure only `last_error` is
written.  A missing or disabled monitor row is returned unchanged. -/
def process_single (monitor : MonitoredBotChat) (messageId : Int)
    (result : ProcResult) : MonitoredBotChat :=
  if ¬ monitor.enabled then monitor
  else
    match result with
    | .response _ _ _ _ _ _ =>
      { monitor with
        last_processed_message_id :=
          some (max (monitor.last_processed_message_id.getD 0) messageId)
        last_error := none }
    | .httpError status detail =>
      let lastError := httpErrorString status detail
      if is_permanent_error lastError then
        { monitor with
          last_processed_message_id :=
            some (max (monitor.last_processed_message_id.getD 0) messageId)
          last_error := some lastError }
      else { monitor with last_error := some lastError }

/-! ## Basic facts about `Dec` values -/

theorem Dec.toRat_neg (d : Dec) : d.neg.toRat = -d.toRat := by
  simp [Dec.toRat, Dec.neg, neg_div]

theorem Dec.toRat_abs (d : Dec) : d.abs.toRat = |d.toRat| := by
  have hpow : (0 : ℚ) < (10 : ℚ) ^ d.scale := by positivity
  simp [Dec.toRat, Dec.abs, abs_div, abs_of_pos hpow]

theorem Dec.toRat_abs_nonneg (d : Dec) : 0 ≤ d.abs.toRat := by
  rw [Dec.toRat_abs]; exact abs_nonneg _

theorem Dec.toRat_abs_neg_nonpos (d : Dec) : d.abs.neg.toRat ≤ 0 := by
  rw [Dec.toRat_neg, Dec.toRat_abs]
  simp [abs_nonneg]

theorem Dec.toRat_abs_eq_zero (d : Dec) : d.abs.toRat = 0 ↔ d.toRat = 0 := by
  rw [Dec.toRat_abs]; exact abs_eq_zero

theorem Dec.toRat_abs_neg_eq_zero (d : Dec) : d.abs.neg.toRat = 0 ↔ d.toRat = 0 := by
  rw [Dec.toRat_neg, Dec.toRat_abs, neg_eq_zero]; exact abs_eq_zero

theorem Dec.toRat_eq_zero_iff (d : Dec) : d.toRat = 0 ↔ d.mantissa = 0 := by
  have hpow : ((10 : ℚ) ^ d.scale) ≠ 0 := by positivity
  rw [Dec.toRat, div_eq_zero_iff]
  simp [hpow]

/-! ## Shared concrete sample data for the claims -/

/-- A fully populated parsed-data sample (Humo-style receipt, S2 of the
spec, with an integer confidence so that every field is kernel-computable). -/
def sampleParsed : ParsedData :=
  { amount := some ⟨40000000, 2⟩
    transaction_type := some "DEBIT"
    card_last_4 := some "6905"
    card_last4 := none
    operator_raw := some "OQ P2P>TASHKENT"
    transaction_date := some ⟨2025, 4, 5, 12, 58⟩
    balance_after := some ⟨53500040, 2⟩
    currency := some "UZS"
    application_mapped := some "OQ P2P"
    parsing_method := some "REGEX_HUMO"
    parsing_confidence := none
    is_p2p := some true }

/-- A plain text message carrying the sample receipt. -/
def sampleMessage : TgMessage :=
  { chat_id := some 1, text := "Оплата 400.000,00 UZS receipt", document := none }

/-! ## Claim C2 — sign discipline -/

/-- A PDF message (mime `application/pdf`, downloadable file id). -/
def samplePdfMessage : TgMessage :=
  { chat_id := some 1, text := "",
    document := some { mime_type := some "application/pdf",
                       file_name := some "receipt.pdf", file_id := some 9 } }

/-- The row a vision-parsed payload would insert always fails the table's
check constraints: its `parsing_method` is `'GPT_VISION'`, which the
`check_parsing_method` value set omits. -/
theorem rowPassesChecks_vision (chatId msgId : Int) (t : String)
    (base : ParsedData) (dt : MinuteStamp) (a : Dec) :
    rowPassesChecks (build_txn_row chatId msgId t (parse_from_images base) dt a) = false := by
  have hm : (build_txn_row chatId msgId t (parse_from_images base) dt a).parsing_method
      = some "GPT_VISION" := rfl
  have hc : allowedParsingMethods.contains "GPT_VISION" = false := by decide
  simp only [rowPassesChecks, hm, hc, Bool.and_false]

/-- `process_tdlib_message` never changes the store when handed a
vision-parsed payload: every pre-insert branch returns the store
unchanged, and the insert branch is unreachable because such a row fails
the check constraints (`rowPassesChecks_vision`). -/
theorem vision_leaves_store (base : ParsedData) (chatId msgId : Int) (force : Bool)
    (msg : Option TgMessage) (store : List TransactionRow) :
    (process_tdlib_message chatId msgId force msg
      (some (parse_from_images base)) store).2 = store := by
  unfold process_tdlib_message
  split
  · rfl
  · cases msg with
    | none => rfl
    | some m =>
      dsimp only
      split
      · rfl
      · split
        · rfl
        · cases hdt : (parse_from_images base).transaction_date with
          | none => rfl
          | some dt =>
            cases hamt : (parse_from_images base).amount with
            | none => rfl
            | some a => simp [rowPassesChecks_vision]

/-- **C2 (confirmed).**  Sign discipline for every row the pipeline can
persist.  Every parse that reaches the insert of `process_tdlib_message`
other than the vision fallback is an output of `orchestrator.process` and
hence passed `_post_validate_and_enrich`, which rejects a missing or zero
amount; for such a parse the stored amount is `-|amount|` when the
inferred type is `DEBIT` and `+|amount|` otherwise, the type is `DEBIT`
iff the stored amount is negative, and the stored amount is never zero.
The vision fallback skips post-validation, but its rows never persist
(they fail `check_parsing_method`), so the store is unchanged on that
path for arbitrary inputs.  (The celery worker's `process_receipt_task`
persists nothing at all: it dereferences `Transaction.fingerprint`, an
attribute the `Transaction` model does not define, and raises before any
insert.) -/
theorem sign_discipline :
    (∀ (p q : ParsedData) (a : Dec) (chatId msgId : Int) (rawText : String) (dt : MinuteStamp),
      post_validate_and_enrich p = some q →
      q.amount = some a →
      ((build_txn_row chatId msgId rawText q dt a).transaction_type = "DEBIT" →
        (build_txn_row chatId msgId rawText q dt a).amount = a.abs.neg) ∧
      ((build_txn_row chatId msgId rawText q dt a).transaction_type ≠ "DEBIT" →
        (build_txn_row chatId msgId rawText q dt a).amount = a.abs) ∧
      ((build_txn_row chatId msgId rawText q dt a).transaction_type = "DEBIT" ↔
        (build_txn_row chatId msgId rawText q dt a).amount.toRat < 0) ∧
      (build_txn_row chatId msgId rawText q dt a).amount.toRat ≠ 0) ∧
    (∀ (base : ParsedData) (chatId msgId : Int) (force : Bool)
        (msg : Option TgMessage) (store : List TransactionRow),
      (process_tdlib_message chatId msgId force msg
        (some (parse_from_images base)) store).2 = store) := by
  constructor
  · intro p q a chatId msgId rawText dt hpv hqa
    have ha : ∃ a0 : Dec, a0.mantissa ≠ 0 ∧ a = a0.abs := by
      cases hA : p.amount with
      | none => simp [post_validate_and_enrich, hA] at hpv
      | some a0 =>
        cases hD : p.transaction_date with
        | none => simp [post_validate_and_enrich, hA, hD] at hpv
        | some d0 =>
          cases hT : p.transaction_type with
          | none => simp [post_validate_and_enrich, hA, hD, hT] at hpv
          | some t0 =>
            by_cases hz : a0.mantissa = 0 ∨ t0 = ""
            · simp [post_validate_and_enrich, hA, hD, hT, hz] at hpv
            · refine ⟨a0, fun hm => hz (Or.inl hm), ?_⟩
              simp only [post_validate_and_enrich, hA, hD, hT, if_neg hz,
                Option.some.injEq] at hpv
              rw [← hpv] at hqa
              simpa using hqa.symm
    obtain ⟨a0, hm0, rfl⟩ := ha
    have hane : (Dec.abs a0).toRat ≠ 0 := fun h =>
      hm0 ((Dec.toRat_eq_zero_iff a0).mp ((Dec.toRat_abs_eq_zero a0).mp h))
    by_cases h : infer_transaction_type q.transaction_type (some rawText) = "DEBIT"
    · have hamt : (build_txn_row chatId msgId rawText q dt a0.abs).amount
          = (Dec.abs a0).abs.neg := by simp [build_txn_row, h]
      have htype : (build_txn_row chatId msgId rawText q dt a0.abs).transaction_type
          = "DEBIT" := by simpa [build_txn_row] using h
      have hlt : ((Dec.abs a0).abs.neg).toRat < 0 := by
        rw [Dec.toRat_neg, Dec.toRat_abs]
        exact neg_lt_zero.mpr (abs_pos.mpr hane)
      refine ⟨fun _ => hamt, fun hne => absurd htype hne, ?_, ?_⟩
      · exact ⟨fun _ => by rw [hamt]; exact hlt, fun _ => htype⟩
      · rw [hamt]; exact ne_of_lt hlt
    · have hamt : (build_txn_row chatId msgId rawText q dt a0.abs).amount
          = (Dec.abs a0).abs := by simp [build_txn_row, h]
      have htype : (build_txn_row chatId msgId rawText q dt a0.abs).transaction_type
          ≠ "DEBIT" := by simpa [build_txn_row] using h
      have hgt : (0 : ℚ) < ((Dec.abs a0).abs).toRat := by
        rw [Dec.toRat_abs]
        exact abs_pos.mpr hane
      refine ⟨fun hd => absurd hd htype, fun _ => hamt, ?_, ?_⟩
      · refine ⟨fun hd => absurd hd htype, fun hlt => ?_⟩
        rw [hamt] at hlt
        exact absurd hlt (not_lt.mpr (le_of_lt hgt))
      · rw [hamt]; exact ne_of_gt hgt
  · intro base chatId msgId force msg store
    exact vision_leaves_store base chatId msgId force msg store

/-- **C2, witness.**  The theorem at the sample receipt (post-validation
maps `sampleParsed` to itself, its amount already being a non-zero
absolute value): the parsed DEBIT of 400000.00 is stored as
`-|400000.00|`, which is non-zero; and a vision-parsed payload inserts
nothing into an empty store. -/
theorem sign_discipline_witness :
    (build_txn_row 1 10 "Оплата" sampleParsed ⟨2025, 4, 5, 12, 58⟩ ⟨40000000, 2⟩).amount
      = (Dec.abs ⟨40000000, 2⟩).neg ∧
    ¬ (build_txn_row 1 10 "Оплата" sampleParsed ⟨2025, 4, 5, 12, 58⟩
        ⟨40000000, 2⟩).amount.toRat = 0 ∧
    (process_tdlib_message 1 2 false (some samplePdfMessage)
      (some (parse_from_images sampleParsed)) []).2 = ([] : List TransactionRow) := by
  have h := sign_discipline
  have h1 := h.1 sampleParsed sampleParsed ⟨40000000, 2⟩ 1 10 "Оплата" ⟨2025, 4, 5, 12, 58⟩
    (by decide) (by decide)
  have hd : (build_txn_row 1 10 "Оплата" sampleParsed ⟨2025, 4, 5, 12, 58⟩
      ⟨40000000, 2⟩).transaction_type = "DEBIT" := by decide
  exact ⟨h1.1 hd, h1.2.2.2, h.2 sampleParsed 1 2 false (some samplePdfMessage) []⟩

/-! ## Claim C4 — parsing-method value set -/

/-- **C4 (code bug).**  The vision fallback tags its result
`parsing_method = 'GPT_VISION'`, but the `check_parsing_method` constraint
of the `transactions` table only admits
`{REGEX_HUMO, REGEX_SMS, REGEX_SEMICOLON, REGEX_CARDXABAR, GPT}`, so
persisting a vision-parsed PDF fails the insert: the claim's set (which
includes `GPT_VISION`) is what the vision path expects, and the schema
contradicts it. -/
theorem parsing_method_vision_rejected :
    (parse_from_images sampleParsed).parsing_method = some "GPT_VISION" ∧
    allowedParsingMethods.contains "GPT_VISION" = false ∧
    process_tdlib_message 1 2 false (some samplePdfMessage)
        (some (parse_from_images sampleParsed)) [] =
      (.httpError 500 "Failed to save transaction", []) := by
  refine ⟨rfl, by decide, by decide⟩

/-! ## Claim C3 — unique-violation handling on insert -/

/-- **C3, counterexample.**  The claim says a unique-constraint violation
on insert (e.g. `force=true` on an already-processed message) is resolved
by re-probe and reported as success referencing the winning row.  In the
code the failed `db.commit` is caught, rolled back and re-raised as HTTP
500 — no re-probe, no success. -/
theorem unique_violation_counterexample :
    process_tdlib_message 1 10 true (some sampleMessage) (some sampleParsed)
        [build_txn_row 1 10 "x" sampleParsed ⟨2025, 4, 5, 12, 58⟩ ⟨40000000, 2⟩] =
      (.httpError 500 "Failed to save transaction",
       [build_txn_row 1 10 "x" sampleParsed ⟨2025, 4, 5, 12, 58⟩ ⟨40000000, 2⟩]) := by
  decide

/-- **C3, amended.**  When the insert hits the `(chat_id, message_id)`
unique constraint (the store already holds a row at that address and the
duplicate probe was bypassed with `force=true`), `process_tdlib_message`
rolls the transaction back and raises HTTP 500 `Failed to save
transaction`; the store is left unchanged by the losing attempt.  No
re-probe happens and no success is reported. -/
theorem unique_violation_amended
    (chatId msgId : Int) (msg : TgMessage) (p : ParsedData)
    (store : List TransactionRow) (dt : MinuteStamp) (a : Dec)
    (hdoc : msg.document = none) (htext : ¬ pyStrip msg.text = "")
    (hdt : p.transaction_date = some dt) (ha : p.amount = some a)
    (hdup : store.any (addrMatch chatId msgId) = true) :
    process_tdlib_message chatId msgId true (some msg) (some p) store =
      (.httpError 500 "Failed to save transaction", store) := by
  cases hf : store.find? (addrMatch chatId msgId) <;>
    simp [process_tdlib_message, hf, hdoc, htext, hdt, ha, hdup]

/-- **C3, witness.**  The amended theorem at the concrete duplicated
address `(1, 10)`. -/
theorem unique_violation_witness :
    process_tdlib_message 1 10 true (some sampleMessage) (some sampleParsed)
        [build_txn_row 1 10 "y" sampleParsed ⟨2025, 4, 5, 12, 58⟩ ⟨40000000, 2⟩] =
      (.httpError 500 "Failed to save transaction",
       [build_txn_row 1 10 "y" sampleParsed ⟨2025, 4, 5, 12, 58⟩ ⟨40000000, 2⟩]) := by
  exact unique_violation_amended 1 10 sampleMessage sampleParsed _ ⟨2025, 4, 5, 12, 58⟩
    ⟨40000000, 2⟩ (by decide) (by decide) (by decide) (by decide) (by decide)

/-! ## Claim C7 — cursor policy -/

/-- **C7 (confirmed).**  For every write `_process_single` performs on
the monitor row: the cursor never decreases; after a success response
(created or duplicate) and after a failure classified permanent it moves
to `max(current, message_id)`; after a transient failure it is unchanged
and only `last_error` is recorded. -/
theorem cursor_policy
    (monitor : MonitoredBotChat) (messageId : Int) (result : ProcResult) :
    (monitor.last_processed_message_id.getD 0 ≤
      (process_single monitor messageId result).last_processed_message_id.getD 0) ∧
    (monitor.enabled = true →
      (∀ c d t mth cf n, result = .response c d t mth cf n →
        (process_single monitor messageId result).last_processed_message_id =
          some (max (monitor.last_processed_message_id.getD 0) messageId) ∧
        (process_single monitor messageId result).last_error = none) ∧
      (∀ st dt, result = .httpError st dt →
        (is_permanent_error (httpErrorString st dt) = true →
          (process_single monitor messageId result).last_processed_message_id =
            some (max (monitor.last_processed_message_id.getD 0) messageId) ∧
          (process_single monitor messageId result).last_error =
            some (httpErrorString st dt)) ∧
        (is_permanent_error (httpErrorString st dt) = false →
          (process_single monitor messageId result).last_processed_message_id =
            monitor.last_processed_message_id ∧
          (process_single monitor messageId result).last_error =
            some (httpErrorString st dt)))) := by
  by_cases he : monitor.enabled = true
  · cases result with
    | response c d t mth cf n =>
      refine ⟨?_, fun _ => ⟨fun _ _ _ _ _ _ _ => ⟨?_, ?_⟩, fun st dt h => by cases h⟩⟩ <;>
        simp [process_single, he, le_max_left]
    | httpError st dt =>
      by_cases hp : is_permanent_error (httpErrorString st dt) = true
      · refine ⟨?_, fun _ => ⟨fun _ _ _ _ _ _ h => (by cases h),
          fun st' dt' h => ?_⟩⟩
        · simp [process_single, he, hp, le_max_left]
        · cases h
          exact ⟨fun _ => by simp [process_single, he, hp],
            fun hnp => absurd hp (by simp [hnp])⟩
      · refine ⟨?_, fun _ => ⟨fun _ _ _ _ _ _ h => (by cases h),
          fun st' dt' h => ?_⟩⟩
        · simp [process_single, he, hp]
        · cases h
          exact ⟨fun hpp => absurd hpp hp,
            fun _ => by simp [process_single, he, hp]⟩
  · refine ⟨by simp [process_single, he], fun h => absurd h he⟩

/-- **C7, witness.**  At a concrete monitor row with cursor 10: a
transient failure (a TDLib download timeout) leaves the cursor at 10 and
records the error; a success on message 12 advances the cursor to 12. -/
theorem cursor_policy_witness :
    (process_single ⟨5, true, some 10, none, "private", "all", []⟩ 12
        (.httpError 504 "Timed out downloading PDF from TDLib")).last_processed_message_id
      = some 10 ∧
    (process_single ⟨5, true, some 10, none, "private", "all", []⟩ 12
        (.response true false (build_txn_row 5 12 "x" sampleParsed ⟨2025, 4, 5, 12, 58⟩
          ⟨40000000, 2⟩) none none none)).last_processed_message_id
      = some 12 := by
  constructor
  · have h := (((cursor_policy ⟨5, true, some 10, none, "private", "all", []⟩ 12
      (.httpError 504 "Timed out downloading PDF from TDLib")).2 rfl).2
      504 "Timed out downloading PDF from TDLib" rfl).2 (by decide)
    exact h.1
  · have h := (((cursor_policy ⟨5, true, some 10, none, "private", "all", []⟩ 12
      (.response true false (build_txn_row 5 12 "x" sampleParsed ⟨2025, 4, 5, 12, 58⟩
        ⟨40000000, 2⟩) none none none)).2 rfl).1
      true false _ none none none rfl).1
    rw [h]
    decide

/-! ## Substring helper lemmas -/

theorem chContains_nil_needle (h : List Char) : chContains h [] = true := by
  induction h with
  | nil => rfl
  | cons a t ih => simp [chContains, chStartsWith]

theorem chStartsWith_append (n h t : List Char) (hs : chStartsWith n h = true) :
    chStartsWith n (h ++ t) = true := by
  induction n generalizing h with
  | nil => rfl
  | cons a as ih =>
    cases h with
    | nil => cases hs
    | cons b bs =>
      simp only [chStartsWith, Bool.and_eq_true, List.cons_append] at hs ⊢
      exact ⟨hs.1, ih bs hs.2⟩

theorem chContains_append_left (h t n : List Char) (hc : chContains h n = true) :
    chContains (h ++ t) n = true := by
  induction h with
  | nil =>
    have : n = [] := by simpa [chContains, List.isEmpty_iff] using hc
    subst this
    exact chContains_nil_needle t
  | cons a h' ih =>
    simp only [chContains, Bool.or_eq_true, List.cons_append] at hc ⊢
    rcases hc with hs | hc
    · exact Or.inl (chStartsWith_append n (a :: h') t hs)
    · exact Or.inr (ih hc)

/-! ## Claim C10 — unsupported document type -/

/-- The error raised by `process_tdlib_message` for a non-PDF document is
classified permanent by `_process_single` (its text contains
`unsupported`). -/
theorem unsupported_doc_error_is_permanent (mt : String) :
    is_permanent_error (httpErrorString 400 ("Unsupported document type: " ++ mt)) = true := by
  have hdata : (httpErrorString 400 ("Unsupported document type: " ++ mt)).data
      = ("400: Unsupported document type: ").data ++ mt.data := by
    have ht : (toString (400 : Nat)) = "400" := by decide
    simp [httpErrorString, ht, String.data_append]
  have hcontains : strContainsB
      (pyLower (httpErrorString 400 ("Unsupported document type: " ++ mt)))
      "unsupported" = true := by
    unfold strContainsB pyLower
    rw [hdata, List.map_append]
    exact chContains_append_left _ _ _ (by decide)
  simp [is_permanent_error, hcontains]

/-- **C10 (confirmed).**  A fetched, not-yet-processed message carrying a
document whose mime type is present and differs from `application/pdf`
fails with HTTP 400 `Unsupported document type` before any parsing; the
store is unchanged (no insert); `_process_single` classifies the error as
permanent and advances the chat cursor to `max(current, message_id)`. -/
theorem unsupported_doc_type
    (chatId msgId : Int) (force : Bool) (monitor : MonitoredBotChat)
    (msg : TgMessage) (doc : TgDocument) (mt : String)
    (parsed? : Option ParsedData) (store : List TransactionRow)
    (hfind : store.find? (addrMatch chatId msgId) = none)
    (hdoc : msg.document = some doc) (hmt : doc.mime_type = some mt)
    (hne : mt ≠ "") (hnpdf : mt ≠ "application/pdf")
    (hen : monitor.enabled = true) :
    process_tdlib_message chatId msgId force (some msg) parsed? store =
      (.httpError 400 ("Unsupported document type: " ++ mt), store) ∧
    (process_single monitor msgId
        (.httpError 400 ("Unsupported document type: " ++ mt))).last_processed_message_id =
      some (max (monitor.last_processed_message_id.getD 0) msgId) := by
  constructor
  · simp [process_tdlib_message, hfind, hdoc, hmt, hne, hnpdf]
  · simp [process_single, hen, unsupported_doc_error_is_permanent mt]

/-- **C10, witness.**  A concrete JPEG attachment on message `(1, 3)`. -/
theorem unsupported_doc_type_witness :
    process_tdlib_message 1 3 false
        (some { chat_id := some 1, text := "",
                document := some { mime_type := some "image/jpeg",
                                   file_name := some "photo.jpg", file_id := some 4 } })
        none [] =
      (.httpError 400 ("Unsupported document type: " ++ "image/jpeg"), []) ∧
    (process_single ⟨1, true, some 2, none, "private", "all", []⟩ 3
        (.httpError 400 ("Unsupported document type: " ++ "image/jpeg"))).last_processed_message_id
      = some (max ((some (2 : Int)).getD 0) 3) := by
  exact unsupported_doc_type 1 3 false ⟨1, true, some 2, none, "private", "all", []⟩
    _ _ "image/jpeg" none [] (by decide) rfl rfl (by decide) (by decide) rfl

/-! ## Claim C8 — capture filter correctness -/

/-- **C8 (confirmed).**  For a text message (no document) in a group-style
chat: `whitelist` mode with an empty custom keyword list never passes;
`blacklist` mode with an empty custom keyword list is exactly the default
keyword predicate (stripped text of at least 20 characters containing a
default receipt keyword). -/
theorem filter_correctness
    (monitor : MonitoredBotChat) (msg : TgMessage)
    (hg : monitor.chat_type ∈ GROUP_CHAT_TYPES)
    (hdoc : msg.document = none)
    (hkw : monitor.filter_keywords = []) :
    (monitor.filter_mode = "whitelist" → should_process_message monitor msg = false) ∧
    (monitor.filter_mode = "blacklist" →
      should_process_message monitor msg = default_keyword_hit msg.text) := by
  simp only [GROUP_CHAT_TYPES, List.mem_cons, List.not_mem_nil, or_false] at hg
  have hct : (if monitor.chat_type = "" then "private" else monitor.chat_type) =
      monitor.chat_type := by
    rcases hg with h | h | h <;> rw [h] <;> decide
  have hcontains : GROUP_CHAT_TYPES.contains monitor.chat_type = true := by
    rcases hg with h | h | h <;> rw [h] <;> decide
  constructor
  · intro hw
    unfold should_process_message
    rw [hdoc, hkw, hw, hct, hcontains]
    by_cases ht : pyStrip msg.text == ""
    · simp [ht]
    · simp [ht]
  · intro hb
    unfold should_process_message default_keyword_hit
    rw [hdoc, hkw, hb, hct, hcontains]
    by_cases ht : pyStrip msg.text == ""
    · rw [beq_iff_eq] at ht
      rw [ht]
      simp [ht, pyLower, MIN_RECEIPT_TEXT_LENGTH]
    · by_cases hd : (decide (MIN_RECEIPT_TEXT_LENGTH ≤ (pyLower (pyStrip msg.text)).length) &&
        DEFAULT_RECEIPT_KEYWORDS.any
          (fun kw => strContainsB (pyLower (pyStrip msg.text)) kw)) = true
      · simp [ht, hd]
      · simp only [Bool.not_eq_true] at hd
        simp [ht, hd]

/-- **C8, witness.**  The theorem applied to a supergroup monitor in
whitelist mode (a genuine receipt text is still dropped) and to a group
monitor in blacklist mode. -/
theorem filter_correctness_witness :
    should_process_message ⟨-100, true, none, none, "supergroup", "whitelist", []⟩
      ⟨some (-100), "Оплата 400.000,00 UZS receipt", none⟩ = false ∧
    should_process_message ⟨-100, true, none, none, "group", "blacklist", []⟩
      ⟨some (-100), "hello", none⟩ = default_keyword_hit "hello" := by
  constructor
  · exact (filter_correctness _ _ (by decide) rfl rfl).1 rfl
  · exact (filter_correctness _ _ (by decide) rfl rfl).2 rfl

/-! ## Claim C9 — operator normalization -/

/-- **C9, counterexample.**  The claim says characters outside `[A-Z0-9 ]`
are dropped, with the remaining characters concatenated, so `'A-B'` would
normalize to `'AB'`.  The source substitutes a **space** for each such
character (`re.sub(r"[^A-Z0-9 ]", " ", ...)`): `'A-B'` normalizes to
`'A B'`. -/
theorem operator_normalizer_counterexample :
    normalize_operator "A-B" = "A B" ∧ normalize_operator "A-B" ≠ "AB" := by decide

theorem mem_subNonAlnum_kept {l : List Char} {c : Char} (h : c ∈ subNonAlnum l) :
    isOpKeptCh c = true := by
  simp only [subNonAlnum, List.mem_map] at h
  obtain ⟨a, _, ha⟩ := h
  by_cases hk : isOpKeptCh a = true
  · rw [if_pos hk] at ha; rwa [← ha]
  · rw [if_neg hk] at ha; rw [← ha]; decide

/-- Tokens produced by `wsTokensAux` are non-empty, whitespace-free, and
built from the accumulator and the remaining input. -/
theorem wsTokensAux_sound :
    ∀ (l cur : List Char), (∀ c ∈ cur, isPySpaceCh c = false) →
    ∀ t ∈ wsTokensAux cur l,
      t ≠ [] ∧ (∀ c ∈ t, isPySpaceCh c = false) ∧ (∀ c ∈ t, c ∈ cur ∨ c ∈ l) := by
  intro l
  induction l with
  | nil =>
    intro cur hcur t ht
    by_cases he : cur.isEmpty
    · simp [wsTokensAux, he] at ht
    · simp only [wsTokensAux, if_neg he, List.mem_singleton] at ht
      subst ht
      refine ⟨by simpa [List.isEmpty_iff] using he, ?_, ?_⟩
      · intro c hc; exact hcur c (List.mem_reverse.mp hc)
      · intro c hc; exact Or.inl (List.mem_reverse.mp hc)
  | cons a rest ih =>
    intro cur hcur t ht
    by_cases hs : isPySpaceCh a = true
    · by_cases he : cur.isEmpty
      · simp only [wsTokensAux, hs, if_pos, he] at ht
        obtain ⟨h1, h2, h3⟩ := ih [] (by simp) t ht
        exact ⟨h1, h2, fun c hc => (h3 c hc).elim (by simp)
          (fun h => Or.inr (List.mem_cons_of_mem a h))⟩
      · simp only [wsTokensAux, hs, if_pos, if_neg he, List.mem_cons] at ht
        rcases ht with ht | ht
        · subst ht
          refine ⟨by simpa [List.isEmpty_iff] using he, ?_, ?_⟩
          · intro c hc; exact hcur c (List.mem_reverse.mp hc)
          · intro c hc; exact Or.inl (List.mem_reverse.mp hc)
        · obtain ⟨h1, h2, h3⟩ := ih [] (by simp) t ht
          exact ⟨h1, h2, fun c hc => (h3 c hc).elim (by simp)
            (fun h => Or.inr (List.mem_cons_of_mem a h))⟩
    · simp only [wsTokensAux, hs] at ht
      have hcur' : ∀ c ∈ a :: cur, isPySpaceCh c = false := by
        intro c hc
        rcases List.mem_cons.mp hc with h | h
        · subst h; simpa using hs
        · exact hcur c h
      obtain ⟨h1, h2, h3⟩ := ih (a :: cur) hcur' t ht
      refine ⟨h1, h2, fun c hc => ?_⟩
      rcases h3 c hc with h | h
      · rcases List.mem_cons.mp h with h' | h'
        · subst h'; exact Or.inr (List.mem_cons_self ..)
        · exact Or.inl h'
      · exact Or.inr (List.mem_cons_of_mem a h)

theorem mem_joinSp :
    ∀ (ts : List (List Char)) (c : Char), c ∈ joinSp ts → c = ' ' ∨ ∃ t ∈ ts, c ∈ t := by
  intro ts
  induction ts with
  | nil => intro c hc; simp [joinSp] at hc
  | cons t rest ih =>
    intro c hc
    cases rest with
    | nil =>
      simp only [joinSp] at hc
      exact Or.inr ⟨t, List.mem_singleton_self t, hc⟩
    | cons r rs =>
      simp only [joinSp, List.mem_append, List.mem_cons] at hc
      rcases hc with hc | hc | hc
      · exact Or.inr ⟨t, List.mem_cons_self .., hc⟩
      · exact Or.inl hc
      · rcases ih c hc with h | ⟨t', ht', hc'⟩
        · exact Or.inl h
        · exact Or.inr ⟨t', List.mem_cons_of_mem t ht', hc'⟩

theorem joinSp_ne_nil {t : List Char} (ht : t ≠ []) (rest : List (List Char)) :
    joinSp (t :: rest) ≠ [] := by
  cases rest with
  | nil => simpa [joinSp] using ht
  | cons r rs =>
    simp only [joinSp]
    intro h
    rcases List.append_eq_nil.mp h with ⟨_, h2⟩
    cases h2

theorem joinSp_head? {t : List Char} (ht : t ≠ []) (rest : List (List Char)) :
    (joinSp (t :: rest)).head? = t.head? := by
  cases rest with
  | nil => rfl
  | cons r rs =>
    simp only [joinSp]
    cases t with
    | nil => exact absurd rfl ht
    | cons a as => rfl

theorem joinSp_getLast?_ne_space :
    ∀ ts : List (List Char),
    (∀ t ∈ ts, t ≠ [] ∧ ∀ c ∈ t, isPySpaceCh c = false) →
    (joinSp ts).getLast? ≠ some ' ' := by
  intro ts
  induction ts with
  | nil => intro _ h; cases h
  | cons t rest ih =>
    intro hts
    obtain ⟨htne, htns⟩ := hts t (List.mem_cons_self ..)
    cases rest with
    | nil =>
      intro h
      have hmem : ' ' ∈ t := List.mem_of_mem_getLast? (by simp [joinSp] at h ⊢; exact h)
      have := htns ' ' hmem
      simp [isPySpaceCh] at this
    | cons r rs =>
      have hrest : ∀ t' ∈ r :: rs, t' ≠ [] ∧ ∀ c ∈ t', isPySpaceCh c = false :=
        fun t' ht' => hts t' (List.mem_cons_of_mem t ht')
      have hne : joinSp (r :: rs) ≠ [] := joinSp_ne_nil (hrest r (List.mem_cons_self ..)).1 rs
      show (t ++ ' ' :: joinSp (r :: rs)).getLast? ≠ some ' '
      intro h
      rw [List.getLast?_append_of_ne_nil _ (List.cons_ne_nil _ _)] at h
      cases hj : joinSp (r :: rs) with
      | nil => exact absurd hj hne
      | cons x xs =>
        rw [hj, List.getLast?_cons_cons, ← hj] at h
        exact ih hrest h

theorem chain'_of_no_space {l : List Char}
    (h : ∀ c ∈ l, isPySpaceCh c = false) :
    l.Chain' (fun a b => ¬(a = ' ' ∧ b = ' ')) := by
  induction l with
  | nil => exact List.chain'_nil
  | cons a t ih =>
    rcases t with _ | ⟨b, t'⟩
    · exact List.chain'_singleton a
    · refine List.chain'_cons.mpr ⟨?_, ih (fun c hc => h c (List.mem_cons_of_mem a hc))⟩
      intro ⟨ha, _⟩
      have := h a (List.mem_cons_self ..)
      rw [ha] at this
      simp [isPySpaceCh] at this

theorem joinSp_chain' :
    ∀ ts : List (List Char),
    (∀ t ∈ ts, t ≠ [] ∧ ∀ c ∈ t, isPySpaceCh c = false) →
    (joinSp ts).Chain' (fun a b => ¬(a = ' ' ∧ b = ' ')) := by
  intro ts
  induction ts with
  | nil => intro _; exact List.chain'_nil
  | cons t rest ih =>
    intro hts
    obtain ⟨htne, htns⟩ := hts t (List.mem_cons_self ..)
    cases rest with
    | nil => exact chain'_of_no_space htns
    | cons r rs =>
      have hrest : ∀ t' ∈ r :: rs, t' ≠ [] ∧ ∀ c ∈ t', isPySpaceCh c = false :=
        fun t' ht' => hts t' (List.mem_cons_of_mem t ht')
      show ((t ++ ' ' :: joinSp (r :: rs)).Chain' _)
      refine List.chain'_append.mpr ⟨chain'_of_no_space htns, ?_, ?_⟩
      · refine List.chain'_cons'.mpr ⟨?_, ih hrest⟩
        intro y hy
        have hyr : y ∈ r := by
          have hh := joinSp_head? (hrest r (List.mem_cons_self ..)).1 rs
          rw [hh] at hy
          exact List.mem_of_mem_head? hy
        intro ⟨_, hy'⟩
        have := (hrest r (List.mem_cons_self ..)).2 y hyr
        rw [hy'] at this
        simp [isPySpaceCh] at this
      · intro x hx y hy
        have hxt : x ∈ t := List.mem_of_mem_getLast? hx
        intro ⟨hx', _⟩
        have := htns x hxt
        rw [hx'] at this
        simp [isPySpaceCh] at this

/-- **C9, amended.**  `normalize_operator` uppercases its input, replaces
every character outside `[A-Z0-9 ]` by a space, and collapses/trims
whitespace runs: every output character is in `[A-Z0-9 ]`, the output
neither starts nor ends with a space, no two spaces are adjacent, and
`'A-B'` normalizes to `'A B'` (not `'AB'`). -/
theorem operator_normalizer_amended :
    (∀ (s : String) (c : Char), c ∈ (normalize_operator s).data → isOpKeptCh c = true) ∧
    (∀ s : String,
      (normalize_operator s).data.head? ≠ some ' ' ∧
      (normalize_operator s).data.getLast? ≠ some ' ' ∧
      (normalize_operator s).data.Chain' (fun a b => ¬(a = ' ' ∧ b = ' '))) ∧
    normalize_operator "A-B" = "A B" ∧
    normalize_operator "  a,b   c " = "A B C" := by
  have hx : ∀ s : String, s ≠ "" →
      (normalize_operator s).data =
        joinSp (wsTokens (subNonAlnum (subWsRuns (pyUpper s).data))) := by
    intro s hs
    simp [normalize_operator, hs]
  have htoks : ∀ s : String,
      ∀ t ∈ wsTokens (subNonAlnum (subWsRuns (pyUpper s).data)),
        t ≠ [] ∧ ∀ c ∈ t, isPySpaceCh c = false := by
    intro s t ht
    obtain ⟨h1, h2, _⟩ := wsTokensAux_sound _ [] (by simp) t ht
    exact ⟨h1, h2⟩
  refine ⟨?_, ?_, by decide, by decide⟩
  · intro s c hc
    by_cases hs : s = ""
    · subst hs; simp [normalize_operator] at hc
    · rw [hx s hs] at hc
      rcases mem_joinSp _ c hc with h | ⟨t, ht, hct⟩
      · subst h; decide
      · obtain ⟨_, _, h3⟩ := wsTokensAux_sound _ [] (by simp) t ht
        rcases h3 c hct with h | h
        · simp at h
        · exact mem_subNonAlnum_kept h
  · intro s
    by_cases hs : s = ""
    · subst hs
      refine ⟨by simp [normalize_operator], by simp [normalize_operator],
        by simp [normalize_operator]⟩
    · rw [hx s hs]
      refine ⟨?_, joinSp_getLast?_ne_space _ (htoks s), joinSp_chain' _ (htoks s)⟩
      cases hts : wsTokens (subNonAlnum (subWsRuns (pyUpper s).data)) with
      | nil => simp [joinSp]
      | cons t rest =>
        have h1 := (htoks s t (by rw [hts]; exact List.mem_cons_self ..))
        rw [joinSp_head? h1.1 rest]
        intro h
        have hmem : ' ' ∈ t := List.mem_of_mem_head? h
        have := h1.2 ' ' hmem
        simp [isPySpaceCh] at this

/-- **C9, witness.**  The amended theorem applied at `"oq p2p>tashkent"`
and its first output character `'O'`. -/
theorem operator_normalizer_witness :
    isOpKeptCh 'O' = true ∧
    (normalize_operator "oq p2p>tashkent").data.head? ≠ some ' ' := by
  exact ⟨operator_normalizer_amended.1 "oq p2p>tashkent" 'O' (by decide),
    (operator_normalizer_amended.2.1 "oq p2p>tashkent").1⟩

/-! ## Claim C5 — operator resolution -/

/-- If the scan loop stops with an exact match, that entry's pattern is
the input and it is in the cache. -/
theorem scanEntries_exact_sound :
    ∀ (cache : List CacheEntry) (input : String) (best : Option CacheEntry)
      (bl : Int) (e : CacheEntry) (b : Option CacheEntry),
    scanEntries input best bl cache = (some e, b) → e.pattern = input ∧ e ∈ cache := by
  intro cache
  induction cache with
  | nil => intro input best bl e b h; cases h
  | cons hd t ih =>
    intro input best bl e b h
    by_cases h0 : hd.pattern = ""
    · rw [scanEntries, if_pos h0] at h
      obtain ⟨h1, h2⟩ := ih input best bl e b h
      exact ⟨h1, List.mem_cons_of_mem hd h2⟩
    · by_cases h1 : input = hd.pattern
      · rw [scanEntries, if_neg h0, if_pos h1] at h
        obtain ⟨he, -⟩ := Prod.mk.injEq .. ▸ h
        cases Option.some.inj he
        exact ⟨h1.symm, List.mem_cons_self ..⟩
      · by_cases h2 : strContainsB input hd.pattern = true
        · by_cases h3 : bl < (hd.pattern.length : Int)
          · rw [scanEntries, if_neg h0, if_neg h1, if_pos h2, if_pos h3] at h
            obtain ⟨he, hm⟩ := ih input (some hd) hd.pattern.length e b h
            exact ⟨he, List.mem_cons_of_mem hd hm⟩
          · rw [scanEntries, if_neg h0, if_neg h1, if_pos h2, if_neg h3] at h
            obtain ⟨he, hm⟩ := ih input best bl e b h
            exact ⟨he, List.mem_cons_of_mem hd hm⟩
        · rw [scanEntries, if_neg h0, if_neg h1,
            if_neg (by simpa using h2)] at h
          obtain ⟨he, hm⟩ := ih input best bl e b h
          exact ⟨he, List.mem_cons_of_mem hd hm⟩

/-- If some cache entry's pattern equals the (non-empty) input, the scan
loop stops with an exact match. -/
theorem scanEntries_exact_found :
    ∀ (cache : List CacheEntry) (input : String) (best : Option CacheEntry) (bl : Int),
    (∃ w ∈ cache, w.pattern = input) → input ≠ "" →
    ∃ e b, scanEntries input best bl cache = (some e, b) := by
  intro cache
  induction cache with
  | nil => intro input best bl hw _; obtain ⟨w, hw, -⟩ := hw; cases hw
  | cons hd t ih =>
    intro input best bl hw hne
    obtain ⟨w, hwmem, hwpat⟩ := hw
    by_cases h0 : hd.pattern = ""
    · have hwt : w ∈ t := by
        rcases List.mem_cons.mp hwmem with h | h
        · subst h; exact absurd (hwpat ▸ h0) hne
        · exact h
      obtain ⟨e, b, heq⟩ := ih input best bl ⟨w, hwt, hwpat⟩ hne
      exact ⟨e, b, by rwa [scanEntries, if_pos h0]⟩
    · by_cases h1 : input = hd.pattern
      · exact ⟨hd, best, by rw [scanEntries, if_neg h0, if_pos h1]⟩
      · have hwt : w ∈ t := by
          rcases List.mem_cons.mp hwmem with h | h
          · subst h; exact absurd hwpat.symm h1
          · exact h
        by_cases h2 : strContainsB input hd.pattern = true
        · by_cases h3 : bl < (hd.pattern.length : Int)
          · obtain ⟨e, b, heq⟩ := ih input (some hd) hd.pattern.length ⟨w, hwt, hwpat⟩ hne
            exact ⟨e, b, by rwa [scanEntries, if_neg h0, if_neg h1, if_pos h2, if_pos h3]⟩
          · obtain ⟨e, b, heq⟩ := ih input best bl ⟨w, hwt, hwpat⟩ hne
            exact ⟨e, b, by rwa [scanEntries, if_neg h0, if_neg h1, if_pos h2, if_neg h3]⟩
        · obtain ⟨e, b, heq⟩ := ih input best bl ⟨w, hwt, hwpat⟩ hne
          exact ⟨e, b, by rwa [scanEntries, if_neg h0, if_neg h1, if_neg (by simpa using h2)]⟩

/-- Loop invariant of the substring search: when the scan finishes with
no exact match, the returned best entry is a substring match of maximal
pattern length among the cache's substring matches. -/
theorem scanEntries_substr_sound :
    ∀ (cache : List CacheEntry) (input : String) (best : Option CacheEntry) (bl : Int),
    (∀ e, best = some e →
      strContainsB input e.pattern = true ∧ (e.pattern.length : Int) = bl ∧ e.pattern ≠ "") →
    ∀ d, scanEntries input best bl cache = (none, some d) →
      strContainsB input d.pattern = true ∧ d.pattern ≠ "" ∧
      (d ∈ cache ∨ best = some d) ∧ bl ≤ (d.pattern.length : Int) ∧
      ∀ e ∈ cache, e.pattern ≠ "" → strContainsB input e.pattern = true →
        (e.pattern.length : Int) ≤ (d.pattern.length : Int) := by
  intro cache
  induction cache with
  | nil =>
    intro input best bl hinv d h
    have hbest : best = some d := by
      rw [scanEntries] at h
      exact (Prod.mk.injEq .. ▸ h).2
    obtain ⟨hc, hl, hn⟩ := hinv d hbest
    exact ⟨hc, hn, Or.inr hbest, le_of_eq hl.symm, by intro e he; cases he⟩
  | cons hd t ih =>
    intro input best bl hinv d h
    by_cases h0 : hd.pattern = ""
    · rw [scanEntries, if_pos h0] at h
      obtain ⟨hc, hn, hm, hbl, hb⟩ := ih input best bl hinv d h
      refine ⟨hc, hn, hm.imp_left (List.mem_cons_of_mem hd), hbl, ?_⟩
      intro e he hepat hecon
      rcases List.mem_cons.mp he with h' | h'
      · exact absurd (h' ▸ h0) hepat
      · exact hb e h' hepat hecon
    · by_cases h1 : input = hd.pattern
      · rw [scanEntries, if_neg h0, if_pos h1] at h
        cases (Prod.mk.injEq .. ▸ h).1
      · by_cases h2 : strContainsB input hd.pattern = true
        · by_cases h3 : bl < (hd.pattern.length : Int)
          · rw [scanEntries, if_neg h0, if_neg h1, if_pos h2, if_pos h3] at h
            have hinv' : ∀ e, (some hd : Option CacheEntry) = some e →
                strContainsB input e.pattern = true ∧
                (e.pattern.length : Int) = (hd.pattern.length : Int) ∧ e.pattern ≠ "" := by
              intro e he; cases Option.some.inj he; exact ⟨h2, rfl, h0⟩
            obtain ⟨hc, hn, hm, hbl, hb⟩ := ih input (some hd) hd.pattern.length hinv' d h
            refine ⟨hc, hn, ?_, le_of_lt (lt_of_lt_of_le h3 hbl), ?_⟩
            · rcases hm with h' | h'
              · exact Or.inl (List.mem_cons_of_mem hd h')
              · cases Option.some.inj h'; exact Or.inl (List.mem_cons_self ..)
            · intro e he hepat hecon
              rcases List.mem_cons.mp he with h' | h'
              · subst h'; exact hbl
              · exact hb e h' hepat hecon
          · rw [scanEntries, if_neg h0, if_neg h1, if_pos h2, if_neg h3] at h
            obtain ⟨hc, hn, hm, hbl, hb⟩ := ih input best bl hinv d h
            refine ⟨hc, hn, hm.imp_left (List.mem_cons_of_mem hd), hbl, ?_⟩
            intro e he hepat hecon
            rcases List.mem_cons.mp he with h' | h'
            · subst h'
              exact le_trans (le_of_not_lt h3) hbl
            · exact hb e h' hepat hecon
        · rw [scanEntries, if_neg h0, if_neg h1, if_neg (by simpa using h2)] at h
          obtain ⟨hc, hn, hm, hbl, hb⟩ := ih input best bl hinv d h
          refine ⟨hc, hn, hm.imp_left (List.mem_cons_of_mem hd), hbl, ?_⟩
          intro e he hepat hecon
          rcases List.mem_cons.mp he with h' | h'
          · subst h'; exact absurd hecon (by simpa using h2)
          · exact hb e h' hepat hecon

/-- The claim's concrete dictionary: active rows `PAY`, `PAYNET`,
`PAYNET HUMO`. -/
def paynetRefs : List OperatorReference :=
  [⟨1, "PAY", "CatchAll Pay", false, true⟩,
   ⟨2, "PAYNET", "Paynet", false, true⟩,
   ⟨3, "PAYNET HUMO", "Paynet Humo", false, true⟩]

/-- **C5, counterexample.**  On input `PAYNET HUM2UZC` the claim expects
`PAYNET HUMO`; but `PAYNET HUMO` does not occur as a substring of
`PAYNET HUM2UZC`, so the resolver selects `PAYNET` (the longest pattern
that does occur) — as the repository's own test
`test_operator_mapper_highest_priority_substring` asserts. -/
theorem operator_resolution_counterexample :
    (map_operator_details (refresh_cache paynetRefs) "PAYNET HUM2UZC").map
        (fun d => d.matched_operator_name) = some "PAYNET" ∧
    strContainsB (normalize_operator "PAYNET HUM2UZC") "PAYNET HUMO" = false ∧
    ("PAYNET" : String) ≠ "PAYNET HUMO" := by decide

/-- **C5, amended.**  `map_operator_details` returns the row whose
normalized pattern equals the normalized input when one exists, and
otherwise an active row whose pattern occurs in the normalized input with
the greatest length among all such patterns; on input `PAYNET HUM2UZC`
against `{PAY, PAYNET, PAYNET HUMO}` it selects `PAYNET`, because
`PAYNET HUMO` is not a substring of the normalized input. -/
theorem operator_resolution_amended :
    (∀ (cache : List CacheEntry) (raw : String) (d : MatchDetails),
      map_operator_details cache raw = some d →
      (d.match_type = "EXACT" → d.matched_operator_name = normalize_operator raw) ∧
      (d.match_type = "SUBSTRING" →
        strContainsB (normalize_operator raw) d.matched_operator_name = true ∧
        ∀ e ∈ cache, e.pattern ≠ "" →
          strContainsB (normalize_operator raw) e.pattern = true →
          e.pattern.length ≤ d.matched_operator_name.length)) ∧
    (∀ (cache : List CacheEntry) (raw : String),
      raw ≠ "" → normalize_operator raw ≠ "" →
      (∃ w ∈ cache, w.pattern = normalize_operator raw) →
      ∃ d, map_operator_details cache raw = some d ∧ d.match_type = "EXACT" ∧
        d.matched_operator_name = normalize_operator raw) ∧
    (∀ (rows : List OperatorReference) (e : CacheEntry),
      e ∈ refresh_cache rows →
      ∃ r ∈ rows, r.is_active = true ∧ e.pattern = normalize_operator r.operator_name ∧
        e.app = r.application_name ∧ e.p2p = r.is_p2p) ∧
    (map_operator_details (refresh_cache paynetRefs) "PAYNET HUM2UZC").map
        (fun d => d.matched_operator_name) = some "PAYNET" := by
  refine ⟨?_, ?_, ?_, by decide⟩
  · intro cache raw d hmap
    by_cases hraw : raw = ""
    · rw [map_operator_details, if_pos hraw] at hmap; cases hmap
    · by_cases hinput : normalize_operator raw = ""
      · rw [map_operator_details, if_neg hraw] at hmap
        rw [if_pos hinput] at hmap
        cases hmap
      · rw [map_operator_details, if_neg hraw, if_neg hinput] at hmap
        cases hsc : scanEntries (normalize_operator raw) none (-1) cache with
        | mk fst snd =>
          rw [hsc] at hmap
          cases fst with
          | some e =>
            obtain ⟨hpat, -⟩ := scanEntries_exact_sound cache _ none (-1) e snd hsc
            cases hmap
            exact ⟨fun _ => hpat, fun hsub => by simp at hsub⟩
          | none =>
            cases snd with
            | none => cases hmap
            | some e =>
              obtain ⟨hc, hn, -, -, hb⟩ :=
                scanEntries_substr_sound cache _ none (-1) (by intro e' h'; cases h') e hsc
              cases hmap
              refine ⟨fun hex => by simp at hex, fun _ => ⟨hc, ?_⟩⟩
              intro e' he' hpat' hcon'
              exact_mod_cast hb e' he' hpat' hcon'
  · intro cache raw hraw hinput hex
    obtain ⟨e, b, hsc⟩ := scanEntries_exact_found cache (normalize_operator raw) none (-1)
      hex hinput
    obtain ⟨hpat, -⟩ := scanEntries_exact_sound cache _ none (-1) e b hsc
    refine ⟨⟨e.ref_id, e.pattern, e.app, e.p2p, "EXACT"⟩, ?_, rfl, hpat⟩
    rw [map_operator_details, if_neg hraw, if_neg hinput, hsc]
  · intro rows e he
    simp only [refresh_cache, List.mem_map, List.mem_filter] at he
    obtain ⟨r, ⟨hmem, hcond⟩, hr⟩ := he
    simp only [Bool.and_eq_true] at hcond
    exact ⟨r, hmem, hcond.1.1, by rw [← hr], by rw [← hr], by rw [← hr]⟩

/-- **C5, witness.**  The amended theorem at the concrete dictionary: the
substring match selected for `PAYNET HUM2UZC` does occur in the
normalized input, and the exact-match clause produces a result for the
exact pattern `PAYNET`. -/
theorem operator_resolution_witness :
    strContainsB (normalize_operator "PAYNET HUM2UZC") "PAYNET" = true ∧
    (map_operator_details (refresh_cache paynetRefs) "PAYNET").isSome = true := by
  constructor
  · exact ((operator_resolution_amended.1 (refresh_cache paynetRefs) "PAYNET HUM2UZC"
      ⟨2, "PAYNET", "Paynet", false, "SUBSTRING"⟩ (by decide)).2 rfl).1
  · obtain ⟨d, hd, -, -⟩ := operator_resolution_amended.2.1 (refresh_cache paynetRefs)
      "PAYNET" (by decide) (by decide)
      ⟨⟨2, "PAYNET", "Paynet", false⟩, by decide, by decide⟩
    rw [hd]
    rfl

/-! ## Claim C1 — content idempotency -/

/-- The sample receipt arriving in a different chat with the same parsed
content. -/
def sampleMessage2 : TgMessage :=
  { chat_id := some 2, text := "Оплата 400.000,00 UZS receipt", document := none }

/-- **C1, counterexample.**  Two messages from different chats with the
same parsed `(|amount|, minute timestamp, last4)` both persist:
`process_tdlib_message` probes only `(chat_id, message_id)` and the
`transactions` table has no content-fingerprint column or constraint.
After processing both, the store holds two rows with the same content
triple and the second call reports `created` (not a duplicate pointing at
the first row). -/
theorem content_idempotency_counterexample :
    ((process_tdlib_message 2 5 false (some sampleMessage2) (some sampleParsed)
        (process_tdlib_message 1 1 false (some sampleMessage) (some sampleParsed) []).2).2.map
      contentKey) =
      [(⟨40000000, 2⟩, ⟨2025, 4, 5, 12, 58⟩, "6905"),
       (⟨40000000, 2⟩, ⟨2025, 4, 5, 12, 58⟩, "6905")] ∧
    (match (process_tdlib_message 2 5 false (some sampleMessage2) (some sampleParsed)
        (process_tdlib_message 1 1 false (some sampleMessage) (some sampleParsed) []).2).1 with
     | ProcResult.response created dup _ _ _ _ => created && !dup
     | ProcResult.httpError _ _ => false) = true := by
  constructor
  · decide
  · decide

/-- **C1, amended.**  `process_tdlib_message` is idempotent per source
address only: re-processing a `(chat_id, message_id)` already in the store
(without `force`) returns a duplicate response referencing the stored row
and leaves the store unchanged; a successful insert appends exactly one
row, which the address probe then finds; but receipts with identical
content at different addresses each persist their own row (no content
probe exists in this path). -/
theorem content_idempotency_amended :
    (∀ (chatId msgId : Int) (message : Option TgMessage) (parsed? : Option ParsedData)
       (store : List TransactionRow) (r : TransactionRow),
      store.find? (addrMatch chatId msgId) = some r →
      process_tdlib_message chatId msgId false message parsed? store =
        (.response false true r r.parsing_method none (some "Already processed"), store)) ∧
    (∀ (chatId msgId : Int) (msg : TgMessage) (p : ParsedData)
       (store : List TransactionRow) (dt : MinuteStamp) (a : Dec),
      store.find? (addrMatch chatId msgId) = none →
      msg.document = none → ¬ pyStrip msg.text = "" →
      p.transaction_date = some dt → p.amount = some a →
      rowPassesChecks (build_txn_row chatId msgId (pyStrip msg.text) p dt a) = true →
      process_tdlib_message chatId msgId false (some msg) (some p) store =
        (.response true false (build_txn_row chatId msgId (pyStrip msg.text) p dt a)
           p.parsing_method p.parsing_confidence none,
         store ++ [build_txn_row chatId msgId (pyStrip msg.text) p dt a]) ∧
      (store ++ [build_txn_row chatId msgId (pyStrip msg.text) p dt a]).find?
          (addrMatch chatId msgId) =
        some (build_txn_row chatId msgId (pyStrip msg.text) p dt a)) ∧
    ((process_tdlib_message 2 5 false (some sampleMessage2) (some sampleParsed)
        (process_tdlib_message 1 1 false (some sampleMessage) (some sampleParsed) []).2).2.map
      contentKey) =
      [(⟨40000000, 2⟩, ⟨2025, 4, 5, 12, 58⟩, "6905"),
       (⟨40000000, 2⟩, ⟨2025, 4, 5, 12, 58⟩, "6905")] := by
  refine ⟨?_, ?_, by decide⟩
  · intro chatId msgId message parsed? store r hfind
    simp [process_tdlib_message, hfind]
  · intro chatId msgId msg p store dt a hfind hdoc htext hdt ha hchecks
    have hany : store.any (addrMatch chatId msgId) = false := by
      rw [← Bool.not_eq_true, List.any_eq_true]
      push_neg
      intro x hx
      simpa using List.find?_eq_none.mp hfind x hx
    constructor
    · simp [process_tdlib_message, hfind, hdoc, htext, hdt, ha, hany, hchecks]
    · rw [List.find?_append, List.find?_eq_none.mpr
        (fun x hx => by simpa using List.find?_eq_none.mp hfind x hx)]
      have hrow : addrMatch chatId msgId (build_txn_row chatId msgId (pyStrip msg.text) p dt a)
          = true := by
        simp [addrMatch, build_txn_row]
      simp [List.find?, hrow]

/-- **C1, witness.**  The amended theorem at the concrete re-processing of
address `(1, 1)`: the second call returns the stored row as a duplicate
and inserts nothing. -/
theorem content_idempotency_witness :
    process_tdlib_message 1 1 false (some sampleMessage) (some sampleParsed)
        (process_tdlib_message 1 1 false (some sampleMessage) (some sampleParsed) []).2 =
      (.response false true
         (build_txn_row 1 1 (pyStrip sampleMessage.text) sampleParsed
           ⟨2025, 4, 5, 12, 58⟩ ⟨40000000, 2⟩)
         (build_txn_row 1 1 (pyStrip sampleMessage.text) sampleParsed
           ⟨2025, 4, 5, 12, 58⟩ ⟨40000000, 2⟩).parsing_method
         none (some "Already processed"),
       (process_tdlib_message 1 1 false (some sampleMessage) (some sampleParsed) []).2) := by
  exact content_idempotency_amended.1 1 1 (some sampleMessage) (some sampleParsed) _ _ (by decide)

/-! ## Claim C6 — amount normalization: auxiliary lemmas -/

/-- The characters `normalize_amount` is sensitive to: digits, dots and
commas.  Every other character of the input is discarded before the
numeral is parsed. -/
def relChar (c : Char) : Bool := c.isDigit || c == '.' || c == ','

theorem relChar_not_space {c : Char} (h : relChar c = true) : isPySpaceCh c = false := by
  cases hsp : isPySpaceCh c
  · rfl
  · simp only [isPySpaceCh, Bool.or_eq_true, beq_iff_eq] at hsp
    rcases hsp with (((((h' | h') | h') | h') | h') | h') | h' <;> subst h' <;>
      simp [relChar] at h

theorem digitDot_relChar {c : Char} (h : (c.isDigit || c == '.') = true) :
    relChar c = true := by
  rcases Bool.or_eq_true_iff.mp h with h1 | h1 <;> simp [relChar, h1]

theorem dropWhile_filter_absorb {p q : Char → Bool}
    (h : ∀ c, q c = true → p c = false) :
    ∀ l : List Char, (l.dropWhile q).filter p = l.filter p := by
  intro l
  induction l with
  | nil => rfl
  | cons a t ih =>
    by_cases hq : q a = true
    · rw [List.dropWhile_cons, if_pos hq, ih, List.filter_cons, if_neg (by simp [h a hq])]
    · rw [List.dropWhile_cons, if_neg hq]

theorem pyStripL_filter_absorb {p : Char → Bool}
    (h : ∀ c, isPySpaceCh c = true → p c = false) (l : List Char) :
    (pyStripL l).filter p = l.filter p := by
  unfold pyStripL
  rw [List.filter_reverse, dropWhile_filter_absorb h, List.filter_reverse,
    List.reverse_reverse, dropWhile_filter_absorb h]

theorem dropWhile_eq_self_of_all {q : Char → Bool} {m : List Char}
    (h : ∀ c ∈ m, q c = false) : m.dropWhile q = m := by
  cases m with
  | nil => rfl
  | cons a t => rw [List.dropWhile_cons, if_neg (by simp [h a (List.mem_cons_self ..)])]

theorem pyStripL_eq_self {m : List Char} (h : ∀ c ∈ m, isPySpaceCh c = false) :
    pyStripL m = m := by
  unfold pyStripL
  rw [dropWhile_eq_self_of_all h,
    dropWhile_eq_self_of_all (fun c hc => h c (List.mem_reverse.mp hc)),
    List.reverse_reverse]

theorem filter_absorb {p q : Char → Bool} (h : ∀ c, p c = true → q c = true)
    (l : List Char) : (l.filter q).filter p = l.filter p := by
  rw [List.filter_filter]
  apply List.filter_congr
  intro c _
  cases hp : p c
  · simp
  · simp [h c hp]

theorem space_not_relChar {c : Char} (h : isPySpaceCh c = true) : relChar c = false := by
  cases hr : relChar c
  · rfl
  · rw [relChar_not_space hr] at h; cases h

theorem cleaned_filter_rel (l : List Char) :
    (cleanedAmount l).filter relChar = l.filter relChar := by
  unfold cleanedAmount
  rw [filter_absorb (q := fun c => c ≠ ' ')
      (fun c h => by rw [decide_eq_true_eq]; intro he; subst he; simp [relChar] at h),
    filter_absorb (q := fun c => c ≠ ' ')
      (fun c h => by rw [decide_eq_true_eq]; intro he; subst he; simp [relChar] at h),
    pyStripL_filter_absorb (fun c h => space_not_relChar h)]

theorem cleanedAmount_of_rel (l : List Char) :
    cleanedAmount (l.filter relChar) = l.filter relChar := by
  have hmem : ∀ c ∈ l.filter relChar, relChar c = true :=
    fun c hc => (List.mem_filter.mp hc).2
  have hnb : (l.filter relChar).filter (fun c => c ≠ ' ') = l.filter relChar :=
    List.filter_eq_self.mpr (fun c hc => by
      rw [decide_eq_true_eq]
      intro he
      have h := hmem c hc
      rw [he] at h
      exact absurd h (by decide))
  have hsp : ∀ c ∈ l.filter relChar, isPySpaceCh c = false :=
    fun c hc => relChar_not_space (hmem c hc)
  unfold cleanedAmount
  rw [pyStripL_eq_self hsp, hnb]
  exact List.filter_eq_self.mpr (fun c hc => by
    rw [decide_eq_true_eq]
    intro he
    have h := hmem c hc
    rw [he] at h
    exact absurd h (by decide))

theorem contains_filter_of_pred {p : Char → Bool} {a : Char} (hp : p a = true)
    (x : List Char) : (x.filter p).contains a = x.contains a := by
  rw [Bool.eq_iff_iff]
  simp [List.contains, List.elem_iff, List.mem_filter, hp]

theorem filter_eq_of_rel_eq {p : Char → Bool} (hp : ∀ c, p c = true → relChar c = true)
    {x y : List Char} (hxy : x.filter relChar = y.filter relChar) :
    x.filter p = y.filter p := by
  rw [← filter_absorb hp x, hxy, filter_absorb hp y]

theorem plain_branch_eq {x y : List Char} (hxy : x.filter relChar = y.filter relChar) :
    digitsDots x = digitsDots y :=
  filter_eq_of_rel_eq (fun _ h => digitDot_relChar h) hxy

theorem comma_branch_eq {x y : List Char} (hxy : x.filter relChar = y.filter relChar) :
    digitsDots (x.map (fun c => if c = ',' then '.' else c)) =
    digitsDots (y.map (fun c => if c = ',' then '.' else c)) := by
  unfold digitsDots
  rw [List.filter_map, List.filter_map]
  congr 1
  apply filter_eq_of_rel_eq
  · intro c h
    simp only [Function.comp] at h
    by_cases hc : c = ','
    · subst hc; decide
    · rw [if_neg hc] at h
      exact digitDot_relChar h
  · exact hxy

theorem both_branch_eq {x y : List Char} (hxy : x.filter relChar = y.filter relChar) :
    digitsDots ((x.filter (fun c => c ≠ '.')).map (fun c => if c = ',' then '.' else c)) =
    digitsDots ((y.filter (fun c => c ≠ '.')).map (fun c => if c = ',' then '.' else c)) := by
  unfold digitsDots
  rw [List.filter_map, List.filter_map]
  congr 1
  rw [List.filter_filter, List.filter_filter]
  apply filter_eq_of_rel_eq
  · intro c h
    rw [Bool.and_eq_true] at h
    by_cases hc : c = ','
    · subst hc; decide
    · simp only [Function.comp, if_neg hc] at h
      exact digitDot_relChar h.1
  · exact hxy

/-- `normalize_amount` only looks at the digits, dots and commas of its
input: every other character may be discarded first. -/
theorem normalizeAmountL_eq_rel (l : List Char) :
    normalizeAmountL l = normalizeAmountL (l.filter relChar) := by
  suffices h : digitsDots (sepConvert (cleanedAmount l)) =
      digitsDots (sepConvert (cleanedAmount (l.filter relChar))) by
    unfold normalizeAmountL
    rw [h]
  rw [cleanedAmount_of_rel]
  have hdot : (cleanedAmount l).contains '.' = (l.filter relChar).contains '.' := by
    rw [← contains_filter_of_pred (p := relChar) (by decide) (cleanedAmount l),
      cleaned_filter_rel, contains_filter_of_pred (by decide)]
  have hcomma : (cleanedAmount l).contains ',' = (l.filter relChar).contains ',' := by
    rw [← contains_filter_of_pred (p := relChar) (by decide) (cleanedAmount l),
      cleaned_filter_rel, contains_filter_of_pred (by decide)]
  have hxy : (cleanedAmount l).filter relChar = (l.filter relChar).filter relChar :=
    (cleaned_filter_rel l).trans (filter_absorb (fun _ h => h) l).symm
  unfold sepConvert
  rw [hdot, hcomma]
  by_cases hd : ((l.filter relChar).contains '.' && (l.filter relChar).contains ',') = true
  · rw [if_pos hd, if_pos hd]
    exact both_branch_eq hxy
  · rw [if_neg hd, if_neg hd]
    by_cases hc : (l.filter relChar).contains ',' = true
    · rw [if_pos hc, if_pos hc]
      exact comma_branch_eq hxy
    · rw [if_neg hc, if_neg hc]
      exact plain_branch_eq hxy

theorem splitDots_ne_nil (m : List Char) : splitDots m ≠ [] := by
  cases m with
  | nil => simp [splitDots]
  | cons c t =>
    by_cases hc : c = '.'
    · simp [splitDots, hc]
    · simp only [splitDots, if_neg hc]
      cases splitDots t <;> simp

theorem flatten_splitDots (m : List Char) :
    (splitDots m).flatten = m.filter (fun c => c ≠ '.') := by
  induction m with
  | nil => rfl
  | cons c t ih =>
    by_cases hc : c = '.'
    · subst hc
      have h1 : splitDots ('.' :: t) = [] :: splitDots t := by
        rw [splitDots, if_pos rfl]
      rw [h1, List.flatten_cons, List.nil_append, ih, List.filter_cons,
        if_neg (by simp)]
    · simp only [splitDots, if_neg hc]
      cases hsp : splitDots t with
      | nil => exact absurd hsp (splitDots_ne_nil t)
      | cons p ps =>
        simp only [List.flatten_cons, List.filter_cons, if_pos (by simp [hc] : decide (c ≠ '.') = true)]
        rw [← ih, hsp]
        simp [List.flatten_cons]

theorem mem_mergeDots_iff {d : Char} (hd : d ≠ '.') (m : List Char) :
    d ∈ mergeDots m ↔ d ∈ m := by
  rcases List.eq_nil_or_concat (splitDots m) with h | ⟨qs, q, h⟩
  · exact absurd h (splitDots_ne_nil m)
  · rw [List.concat_eq_append] at h
    have hflat : (splitDots m).flatten = qs.flatten ++ q := by
      rw [h, List.flatten_append]; simp
    simp only [mergeDots]
    rw [h, List.dropLast_concat, List.getLastD_concat]
    constructor
    · intro hmem
      rcases List.mem_append.mp hmem with h' | h'
      · have : d ∈ (splitDots m).flatten := by
          rw [hflat]; exact List.mem_append.mpr (Or.inl h')
        rw [flatten_splitDots] at this
        exact (List.mem_filter.mp this).1
      · rcases List.mem_cons.mp h' with h'' | h''
        · exact absurd h'' hd
        · have : d ∈ (splitDots m).flatten := by
            rw [hflat]; exact List.mem_append.mpr (Or.inr h'')
          rw [flatten_splitDots] at this
          exact (List.mem_filter.mp this).1
    · intro hmem
      have : d ∈ (splitDots m).flatten := by
        rw [flatten_splitDots]
        exact List.mem_filter.mpr ⟨hmem, by simp [hd]⟩
      rw [hflat] at this
      rcases List.mem_append.mp this with h' | h'
      · exact List.mem_append.mpr (Or.inl h')
      · exact List.mem_append.mpr (Or.inr (List.mem_cons_of_mem _ h'))

theorem digit_mem_sepConvert {d : Char} (hd : d.isDigit = true) (m : List Char) :
    d ∈ sepConvert m ↔ d ∈ m := by
  have hdot : d ≠ '.' := fun h => by rw [h] at hd; exact absurd hd (by decide)
  have hcomma : d ≠ ',' := fun h => by rw [h] at hd; exact absurd hd (by decide)
  unfold sepConvert
  by_cases h1 : (m.contains '.' && m.contains ',') = true
  · rw [if_pos h1]
    constructor
    · intro hmem
      obtain ⟨a, ha, hmap⟩ := List.mem_map.mp hmem
      by_cases hac : a = ','
      · rw [if_pos hac] at hmap; exact absurd hmap.symm hdot
      · rw [if_neg hac] at hmap
        subst hmap
        exact (List.mem_filter.mp ha).1
    · intro hmem
      exact List.mem_map.mpr ⟨d, List.mem_filter.mpr ⟨hmem, by simp [hdot]⟩,
        by rw [if_neg hcomma]⟩
  · rw [if_neg h1]
    by_cases h2 : m.contains ',' = true
    · rw [if_pos h2]
      constructor
      · intro hmem
        obtain ⟨a, ha, hmap⟩ := List.mem_map.mp hmem
        by_cases hac : a = ','
        · rw [if_pos hac] at hmap; exact absurd hmap.symm hdot
        · rw [if_neg hac] at hmap; subst hmap; exact ha
      · intro hmem
        exact List.mem_map.mpr ⟨d, hmem, by rw [if_neg hcomma]⟩
    · rw [if_neg h2]

/-- `normalize_amount` rejects exactly the inputs with no ASCII digit
(the inputs that "reduce to nothing" after cleaning). -/
theorem normalize_amount_none_iff (s : String) :
    normalize_amount s = none ↔ ∀ c ∈ s.data, c.isDigit = false := by
  rw [show normalize_amount s = normalizeAmountL s.data from rfl, normalizeAmountL_eq_rel]
  constructor
  · intro hnone c hc
    by_contra hdig
    rw [Bool.not_eq_false] at hdig
    have hrel : relChar c = true := by simp [relChar, hdig]
    have hcr : c ∈ s.data.filter relChar := List.mem_filter.mpr ⟨hc, hrel⟩
    have hsep : c ∈ sepConvert (s.data.filter relChar) :=
      (digit_mem_sepConvert hdig _).mpr hcr
    have hdd : c ∈ digitsDots (sepConvert (s.data.filter relChar)) :=
      List.mem_filter.mpr ⟨hsep, by simp [hdig]⟩
    have hC : c ≠ '.' := fun h => by rw [h] at hdig; exact absurd hdig (by decide)
    have hc3 : c ∈ lastDotOnly (digitsDots (sepConvert (s.data.filter relChar))) := by
      unfold lastDotOnly
      by_cases hm : 1 < ((digitsDots (sepConvert (s.data.filter relChar))).filter
          (fun c => c == '.')).length
      · rw [if_pos hm]; exact (mem_mergeDots_iff hC _).mpr hdd
      · rw [if_neg hm]; exact hdd
    unfold normalizeAmountL at hnone
    rw [cleanedAmount_of_rel] at hnone
    by_cases hcond : lastDotOnly (digitsDots (sepConvert (s.data.filter relChar))) = [] ∨
        lastDotOnly (digitsDots (sepConvert (s.data.filter relChar))) = ['.']
    · rcases hcond with h | h
      · rw [h] at hc3; cases hc3
      · rw [h] at hc3; exact hC (List.mem_singleton.mp hc3)
    · rw [if_neg hcond] at hnone; cases hnone
  · intro hnd
    have hall : ∀ c ∈ digitsDots (sepConvert (cleanedAmount (s.data.filter relChar))),
        c = '.' := by
      rw [cleanedAmount_of_rel]
      intro c hc
      obtain ⟨hmem, hdd⟩ := List.mem_filter.mp hc
      rcases Bool.or_eq_true_iff.mp hdd with h | h
      · have hcr := (digit_mem_sepConvert h _).mp hmem
        have h0 := hnd c (List.mem_filter.mp hcr).1
        rw [h0] at h; cases h
      · exact beq_iff_eq.mp h
    unfold normalizeAmountL
    set c2 := digitsDots (sepConvert (cleanedAmount (s.data.filter relChar))) with hc2
    by_cases hm : 1 < (c2.filter (fun c => c == '.')).length
    · have hfe : c2.filter (fun c => c ≠ '.') = [] :=
        List.filter_eq_nil_iff.mpr (fun a ha => by simp [hall a ha])
      rcases List.eq_nil_or_concat (splitDots c2) with h | ⟨qs, q, h⟩
      · exact absurd h (splitDots_ne_nil c2)
      · rw [List.concat_eq_append] at h
        have h2 : (splitDots c2).flatten = [] := by rw [flatten_splitDots]; exact hfe
        rw [h, List.flatten_append, List.flatten_cons, List.flatten_nil,
          List.append_nil] at h2
        obtain ⟨hq1, hq2⟩ := List.append_eq_nil.mp h2
        have hmd : mergeDots c2 = ['.'] := by
          simp only [mergeDots]
          rw [h, List.dropLast_concat, List.getLastD_concat, hq1, hq2]
          rfl
        unfold lastDotOnly
        rw [if_pos hm, hmd]
        simp
    · unfold lastDotOnly
      rw [if_neg hm]
      have hself : c2.filter (fun c => c == '.') = c2 :=
        List.filter_eq_self.mpr (fun a ha => by simp [hall a ha])
      rw [hself] at hm
      have hcases : c2 = [] ∨ c2 = ['.'] := by
        cases hc : c2 with
        | nil => exact Or.inl rfl
        | cons a t =>
          cases ht : t with
          | nil =>
            refine Or.inr ?_
            rw [hall a (by rw [hc]; exact List.mem_cons_self ..)]
          | cons b u =>
            rw [hc, ht] at hm
            simp at hm
      rw [if_pos hcases]

theorem contains_iff_mem (x : List Char) (a : Char) : x.contains a = true ↔ a ∈ x := by
  simp [List.contains, List.elem_iff]

theorem rel_c2d (c : Char) : relChar (if c = ',' then '.' else c) = relChar c := by
  by_cases hc : c = ','
  · subst hc; decide
  · rw [if_neg hc]

/-- `cleanedAmount` is the identity on strings of digits, dots and
commas. -/
theorem cleanedAmount_of_all_rel {m : List Char} (h : ∀ c ∈ m, relChar c = true) :
    cleanedAmount m = m := by
  have hnb : m.filter (fun c => c ≠ ' ') = m :=
    List.filter_eq_self.mpr (fun c hc => by
      rw [decide_eq_true_eq]
      intro he
      have h0 := h c hc
      rw [he] at h0
      exact absurd h0 (by decide))
  unfold cleanedAmount
  rw [pyStripL_eq_self (fun c hc => relChar_not_space (h c hc)), hnb]
  exact List.filter_eq_self.mpr (fun c hc => by
    rw [decide_eq_true_eq]
    intro he
    have h0 := h c hc
    rw [he] at h0
    exact absurd h0 (by decide))

theorem filter_rel_map_c2d (m : List Char) :
    (m.map (fun c => if c = ',' then '.' else c)).filter relChar =
      (m.filter relChar).map (fun c => if c = ',' then '.' else c) := by
  rw [List.filter_map]
  congr 1
  apply List.filter_congr
  intro c _
  exact rel_c2d c

/-- A space or no-break space in the input never affects the result. -/
theorem normalize_amount_despace (s : String) :
    normalize_amount s =
      normalize_amount (String.mk (s.data.filter (fun c => !(c == ' ' || c == ' ')))) := by
  have h1 := normalizeAmountL_eq_rel s.data
  have h2 := normalizeAmountL_eq_rel (s.data.filter (fun c => !(c == ' ' || c == ' ')))
  show normalizeAmountL s.data =
    normalizeAmountL (s.data.filter (fun c => !(c == ' ' || c == ' ')))
  rw [h1, h2]
  congr 1
  rw [List.filter_filter]
  apply List.filter_congr
  intro c _
  cases hr : relChar c
  · simp [hr]
  · have hs : c ≠ ' ' := fun he => by
      rw [he] at hr; exact absurd hr (by decide)
    have hn : c ≠ ' ' := fun he => by
      rw [he] at hr; exact absurd hr (by decide)
    simp [hr, hs, hn]

/-- When both `.` and `,` occur, the result is that of the string with
every dot deleted (thousands separators) and every comma turned into the
decimal point. -/
theorem normalize_amount_both_seps (s : String)
    (hdot : '.' ∈ s.data) (hcomma : ',' ∈ s.data) :
    normalize_amount s = normalize_amount (String.mk
      ((s.data.filter (fun c => c ≠ '.')).map (fun c => if c = ',' then '.' else c))) := by
  have hTrel :
      ((s.data.filter (fun c => c ≠ '.')).map (fun c => if c = ',' then '.' else c)).filter
          relChar =
        (((s.data.filter relChar).filter (fun c => c ≠ '.')).map
          (fun c => if c = ',' then '.' else c)) := by
    rw [filter_rel_map_c2d, List.filter_filter, List.filter_filter]
    congr 1
    apply List.filter_congr
    intro c _
    exact Bool.and_comm ..
  have h1 := normalizeAmountL_eq_rel s.data
  have h2 := normalizeAmountL_eq_rel
    ((s.data.filter (fun c => c ≠ '.')).map (fun c => if c = ',' then '.' else c))
  show normalizeAmountL s.data = normalizeAmountL
    ((s.data.filter (fun c => c ≠ '.')).map (fun c => if c = ',' then '.' else c))
  rw [h1, h2, hTrel]
  set r := s.data.filter relChar with hrdef
  have hdr : '.' ∈ r := List.mem_filter.mpr ⟨hdot, by decide⟩
  have hcr : ',' ∈ r := List.mem_filter.mpr ⟨hcomma, by decide⟩
  have hrall : ∀ c ∈ r, relChar c = true := fun c hc => (List.mem_filter.mp hc).2
  have htall : ∀ c ∈ (r.filter (fun c => c ≠ '.')).map (fun c => if c = ',' then '.' else c),
      relChar c = true := by
    intro c hc
    obtain ⟨a, ha, hmap⟩ := List.mem_map.mp hc
    rw [← hmap, rel_c2d]
    exact hrall a (List.mem_filter.mp ha).1
  suffices hsep : sepConvert (cleanedAmount r) = sepConvert (cleanedAmount
      ((r.filter (fun c => c ≠ '.')).map (fun c => if c = ',' then '.' else c))) by
    unfold normalizeAmountL
    rw [hsep]
  rw [cleanedAmount_of_all_rel hrall, cleanedAmount_of_all_rel htall]
  have hsd : r.contains '.' = true := (contains_iff_mem r '.').mpr hdr
  have hsc : r.contains ',' = true := (contains_iff_mem r ',').mpr hcr
  have htd : ((r.filter (fun c => c ≠ '.')).map
      (fun c => if c = ',' then '.' else c)).contains '.' = true := by
    apply (contains_iff_mem _ _).mpr
    exact List.mem_map.mpr ⟨',', List.mem_filter.mpr ⟨hcr, by decide⟩, by rw [if_pos rfl]⟩
  have htc : ((r.filter (fun c => c ≠ '.')).map
      (fun c => if c = ',' then '.' else c)).contains ',' = false := by
    cases hv : ((r.filter (fun c => c ≠ '.')).map
        (fun c => if c = ',' then '.' else c)).contains ','
    · rfl
    · obtain ⟨a, ha, hmap⟩ := List.mem_map.mp ((contains_iff_mem _ _).mp hv)
      by_cases hac : a = ','
      · rw [if_pos hac] at hmap; exact absurd hmap (by decide)
      · rw [if_neg hac] at hmap; exact absurd hmap hac
  unfold sepConvert
  rw [hsd, hsc, htd, htc]
  simp

/-- When only `,` occurs (no dot), the result is that of the string with
every comma turned into the decimal point. -/
theorem normalize_amount_comma_only (s : String)
    (hcomma : ',' ∈ s.data) (hdot : '.' ∉ s.data) :
    normalize_amount s = normalize_amount
      (String.mk (s.data.map (fun c => if c = ',' then '.' else c))) := by
  have h1 := normalizeAmountL_eq_rel s.data
  have h2 := normalizeAmountL_eq_rel (s.data.map (fun c => if c = ',' then '.' else c))
  show normalizeAmountL s.data =
    normalizeAmountL (s.data.map (fun c => if c = ',' then '.' else c))
  rw [h1, h2, filter_rel_map_c2d]
  set r := s.data.filter relChar with hrdef
  have hcr : ',' ∈ r := List.mem_filter.mpr ⟨hcomma, by decide⟩
  have hdr : '.' ∉ r := fun h => hdot (List.mem_filter.mp h).1
  have hrall : ∀ c ∈ r, relChar c = true := fun c hc => (List.mem_filter.mp hc).2
  have htall : ∀ c ∈ r.map (fun c => if c = ',' then '.' else c), relChar c = true := by
    intro c hc
    obtain ⟨a, ha, hmap⟩ := List.mem_map.mp hc
    rw [← hmap, rel_c2d]
    exact hrall a ha
  suffices hsep : sepConvert (cleanedAmount r) =
      sepConvert (cleanedAmount (r.map (fun c => if c = ',' then '.' else c))) by
    unfold normalizeAmountL
    rw [hsep]
  rw [cleanedAmount_of_all_rel hrall, cleanedAmount_of_all_rel htall]
  have hsd : r.contains '.' = false := by
    cases hv : r.contains '.'
    · rfl
    · exact absurd ((contains_iff_mem _ _).mp hv) hdr
  have hsc : r.contains ',' = true := (contains_iff_mem r ',').mpr hcr
  have htd : (r.map (fun c => if c = ',' then '.' else c)).contains '.' = true := by
    apply (contains_iff_mem _ _).mpr
    exact List.mem_map.mpr ⟨',', hcr, by rw [if_pos rfl]⟩
  have htc : (r.map (fun c => if c = ',' then '.' else c)).contains ',' = false := by
    cases hv : (r.map (fun c => if c = ',' then '.' else c)).contains ','
    · rfl
    · obtain ⟨a, ha, hmap⟩ := List.mem_map.mp ((contains_iff_mem _ _).mp hv)
      by_cases hac : a = ','
      · rw [if_pos hac] at hmap; exact absurd hmap (by decide)
      · rw [if_neg hac] at hmap; exact absurd hmap hac
  unfold sepConvert
  rw [hsd, hsc, htd, htc]
  simp

set_option maxHeartbeats 1000000 in
/-- **C6 (confirmed).**  `normalize_amount` ignores spaces and no-break
spaces; with both `.` and `,` present it treats dots as thousands
separators and the comma as the decimal point; with only `,` present it
treats the comma as the decimal point; it rejects exactly the inputs that
reduce to nothing (no digits); and it maps the golden inputs
`"6.935.000,00" -> 6935000.00`, `"2 052 200,14" -> 2052200.14`,
`"351 750.00" -> 351750.00`. -/
theorem amount_normalization :
    (∀ s : String, normalize_amount s =
        normalize_amount (String.mk (s.data.filter (fun c => !(c == ' ' || c == ' '))))) ∧
    (∀ s : String, '.' ∈ s.data → ',' ∈ s.data →
        normalize_amount s = normalize_amount (String.mk
          ((s.data.filter (fun c => c ≠ '.')).map (fun c => if c = ',' then '.' else c)))) ∧
    (∀ s : String, ',' ∈ s.data → '.' ∉ s.data →
        normalize_amount s = normalize_amount
          (String.mk (s.data.map (fun c => if c = ',' then '.' else c)))) ∧
    (∀ s : String, normalize_amount s = none ↔ ∀ c ∈ s.data, c.isDigit = false) ∧
    (normalize_amount "6.935.000,00" = some ⟨693500000, 2⟩ ∧
      Dec.toRat ⟨693500000, 2⟩ = 6935000) ∧
    (normalize_amount "2 052 200,14" = some ⟨205220014, 2⟩ ∧
      Dec.toRat ⟨205220014, 2⟩ = 2052200 + 14 / 100) ∧
    (normalize_amount "351 750.00" = some ⟨35175000, 2⟩ ∧
      Dec.toRat ⟨35175000, 2⟩ = 351750) :=
  ⟨normalize_amount_despace, normalize_amount_both_seps, normalize_amount_comma_only,
   normalize_amount_none_iff,
   ⟨by decide, by norm_num [Dec.toRat]⟩, ⟨by decide, by norm_num [Dec.toRat]⟩,
   ⟨by decide, by norm_num [Dec.toRat]⟩⟩

/-- **C6, witness.**  The universal clauses applied at concrete inputs:
the both-separator clause at `"6.935.000,00"` and the rejection clause at
a digit-free input. -/
theorem amount_normalization_witness :
    normalize_amount "6.935.000,00" =
      normalize_amount (String.mk
        (("6.935.000,00".data.filter (fun c => c ≠ '.')).map
          (fun c => if c = ',' then '.' else c))) ∧
    normalize_amount "UZS receipt" = none := by
  refine ⟨amount_normalization.2.1 "6.935.000,00" (by decide) (by decide), ?_⟩
  exact (amount_normalization.2.2.2.1 "UZS receipt").mpr (by decide)
